import Mathlib

/-! # Verification development for the replication labs

Shallow embedding of the Go packages of the repository (`viewservice`,
`paxos`, `pbservice`, `lockservice`) and theorems about them: the handlers
one by one, the view server as a state machine, a cluster of one view server
and replicas, a net of Paxos peers and proposers, and the two lock servers.

Conventions of the embedding

* Go `string` is `String`; `len(s) == 0` holds exactly for `s = ""`.
* Go `uint` view numbers are `Nat`. The state machine of the view server is
  taken over unbounded view numbers, as its claims take them; `UpdateViewUint`
  is `UpdateView` with the 64-bit wrap of `uint` addition, for what is said of
  every view.
* Go `int` is `Int`; only comparisons are made on them.
* `time.Time` is an `Int` (a number of nanoseconds); `time.Now()` is an
  explicit argument `now` of every handler that reads the clock.
* A Go map read through `m[k]` is a function returning the zero value for
  missing keys; a map that is ranged over is an association list and the
  order in which `range` yields it is an explicit argument.
* The outcome of an outgoing `call(...)` is an explicit argument.
-/

namespace ViewService

/-- Modelled from the spec: the `View` struct is declared in
viewservice/common.go, which is not among the sources. The triple
`(viewnum, primary, backup)`, the zero view being `(0, "", "")`. -/
structure View where
  Viewnum : Nat
  Primary : String
  Backup : String
deriving DecidableEq, Repr

/-- Modelled from the spec: `PingArgs` is declared in viewservice/common.go. -/
structure PingArgs where
  Me : String
  Viewnum : Nat
deriving DecidableEq, Repr

/-- Modelled from the spec: `PingReply` is declared in viewservice/common.go. -/
structure PingReply where
  View : View
deriving DecidableEq, Repr

/-- Modelled from the spec: the constants `PingInterval` and `DeadPings` are
declared in viewservice/common.go; they are kept as parameters. -/
structure Timing where
  PingInterval : Int
  DeadPings : Int
deriving DecidableEq, Repr

/-- The zero value `View{}`. -/
def View.zero : View := { Viewnum := 0, Primary := "", Backup := "" }

/-- The fields of `ViewServer` that the handlers read and write. -/
structure ViewServer where
  times : List (String × Int)
  views : Nat → View
  currentView : Nat
  primaryAck : Nat

/-- Read `times[key]` with the comma-ok flag: `none` when the key is absent. -/
def timesGet (times : List (String × Int)) (key : String) : Option Int :=
  match times with
  | [] => none
  | (k, t) :: rest => if k = key then some t else timesGet rest key

/-- Assignment `times[key] = t`: replaces the entry of an existing key. -/
def timesSet (times : List (String × Int)) (key : String) (t : Int) : List (String × Int) :=
  match times with
  | [] => [(key, t)]
  | (k, t0) :: rest => if k = key then (k, t) :: rest else (k, t0) :: timesSet rest key t

/-- Assignment `views[n] = v`. -/
def viewsSet (views : Nat → View) (n : Nat) (v : View) : Nat → View :=
  fun m => if m = n then v else views m

/-- `UpdateView(view, server, clientnum)` over unbounded view numbers: the sum
`view.Viewnum + 1` does not wrap (`UpdateViewUint` is the same body with the
wrap, and agrees with this one below it). The argument is a pointer and the
function writes `view.Primary = ""` through it, so the result is the pair of
the returned view and the caller's view after the call. -/
def UpdateView (view0 : View) (server : String) (clientnum : Nat) : View × View :=
  let result : View :=
    { Viewnum := view0.Viewnum, Primary := view0.Primary, Backup := view0.Backup }
  let view : View :=
    if clientnum = 0 ∧ view0.Viewnum > 1 ∧ server = view0.Primary then
      { view0 with Primary := "" }
    else view0
  let rc : View × Bool :=
    if view.Primary = "" then
      if view.Backup ≠ "" then
        ({ result with Primary := view.Backup, Backup := server }, true)
      else
        ({ result with Primary := server }, true)
    else
      if view.Backup = "" ∧ view.Primary ≠ server then
        ({ result with Backup := server }, true)
      else (result, false)
  let result : View :=
    if rc.2 then { rc.1 with Viewnum := view.Viewnum + 1 } else rc.1
  (result, view)

/-- The number of values of a Go `uint` on a 64-bit platform. -/
def uintSize : Nat := 2 ^ 64

/-- `UpdateView(view, server, clientnum)` with `uint` arithmetic: the body of
`UpdateView`, the sum `view.Viewnum + 1` wrapping at `uintSize` as Go's
`uint` addition does. The result is the pair of the returned view and the
caller's view after the call. -/
def UpdateViewUint (view0 : View) (server : String) (clientnum : Nat) : View × View :=
  let result : View :=
    { Viewnum := view0.Viewnum, Primary := view0.Primary, Backup := view0.Backup }
  let view : View :=
    if clientnum = 0 ∧ view0.Viewnum > 1 ∧ server = view0.Primary then
      { view0 with Primary := "" }
    else view0
  let rc : View × Bool :=
    if view.Primary = "" then
      if view.Backup ≠ "" then
        ({ result with Primary := view.Backup, Backup := server }, true)
      else
        ({ result with Primary := server }, true)
    else
      if view.Backup = "" ∧ view.Primary ≠ server then
        ({ result with Backup := server }, true)
      else (result, false)
  let result : View :=
    if rc.2 then { rc.1 with Viewnum := (view.Viewnum + 1) % uintSize } else rc.1
  (result, view)

/-- `findBackup(times, view)`: `order` is the sequence in which `range times`
yields the entries of the map. -/
def findBackup (cfg : Timing) (now : Int) (order : List (String × Int)) (view : View) : String :=
  match order with
  | [] => ""
  | (key, value) :: rest =>
    if now - value < cfg.PingInterval * cfg.DeadPings ∧
        key ≠ view.Primary ∧ key ≠ view.Backup then key
    else findBackup cfg now rest view

/-- The `Ping` RPC handler, run at time `now`. -/
def Ping (vs : ViewServer) (now : Int) (args : PingArgs) : ViewServer × PingReply :=
  let times := timesSet vs.times args.Me now
  let view := vs.views vs.currentView
  let primaryAck :=
    if view.Primary = args.Me ∧ view.Viewnum = args.Viewnum then view.Viewnum
    else vs.primaryAck
  let uv := UpdateView view args.Me args.Viewnum
  let newView := uv.1
  let view := uv.2
  if newView.Viewnum ≠ vs.currentView ∧ newView.Viewnum ≤ primaryAck + 1 then
    ({ times := times, views := viewsSet vs.views newView.Viewnum newView,
       currentView := newView.Viewnum, primaryAck := primaryAck },
     { View := newView })
  else
    ({ times := times, views := vs.views, currentView := vs.currentView,
       primaryAck := primaryAck },
     { View := view })

/-- The `Get` RPC handler. -/
def Get (vs : ViewServer) : View := vs.views vs.currentView

/-- The periodic `tick`, run at time `now`; `order` is the order in which
`findBackup` ranges over `times`. A missing key reads as the zero time with
the flag `false`. -/
def tick (cfg : Timing) (vs : ViewServer) (now : Int) (order : List (String × Int)) : ViewServer :=
  let view := vs.views vs.currentView
  let primaryTime := (timesGet vs.times view.Primary).getD 0
  let pExists := (timesGet vs.times view.Primary).isSome
  let backupTime := (timesGet vs.times view.Backup).getD 0
  let bExists := (timesGet vs.times view.Backup).isSome
  if vs.primaryAck < vs.currentView then vs
  else if pExists = true ∧ now - primaryTime > cfg.PingInterval * cfg.DeadPings then
    let newView : View :=
      { Viewnum := view.Viewnum + 1, Primary := view.Backup,
        Backup := findBackup cfg now order view }
    { vs with currentView := newView.Viewnum,
              views := viewsSet vs.views newView.Viewnum newView }
  else if bExists = true ∧ now - backupTime > cfg.PingInterval * cfg.DeadPings then
    let newView : View :=
      { Viewnum := view.Viewnum + 1, Primary := view.Primary,
        Backup := findBackup cfg now order view }
    { vs with currentView := newView.Viewnum,
              views := viewsSet vs.views newView.Viewnum newView }
  else vs

/-- The state `StartServer` builds: empty maps, `views[0] = View{}`, and the
zero value of `primaryAck`. -/
def StartServer : ViewServer :=
  { times := [], views := viewsSet (fun _ => View.zero) 0 View.zero,
    currentView := 0, primaryAck := 0 }

/-- States reachable from `StartServer` by `Ping` and `tick` calls, the
mutex making each call atomic. A tick ranges over the map in any order. -/
inductive Reachable (cfg : Timing) : ViewServer → Prop
  | start : Reachable cfg StartServer
  | ping (vs : ViewServer) (now : Int) (args : PingArgs) :
      Reachable cfg vs → Reachable cfg (Ping vs now args).1
  | tick (vs : ViewServer) (now : Int) (order : List (String × Int)) :
      Reachable cfg vs → order.Perm vs.times → Reachable cfg (tick cfg vs now order)

/-- The record invariant: the current view is stored under its own number and
the acknowledged view number is the current one or its predecessor. -/
def Inv (vs : ViewServer) : Prop :=
  (vs.views vs.currentView).Viewnum = vs.currentView ∧
  vs.primaryAck ≤ vs.currentView ∧ vs.currentView ≤ vs.primaryAck + 1

/-- The state after `Ping(A, 0)` and the acknowledgement `Ping(A, 1)` on a
fresh server: the view `(1, A, "")`, acknowledged. -/
def ackedA : ViewServer :=
  (Ping (Ping StartServer 0 { Me := "A", Viewnum := 0 }).1 1 { Me := "A", Viewnum := 1 }).1

/-- The state `ackedA` after `Ping(B, 0)`: the view `(2, A, B)`, which the
primary has not acknowledged. -/
def unackedAB : ViewServer :=
  (Ping ackedA 2 { Me := "B", Viewnum := 0 }).1

/-- The state `unackedAB` after the acknowledgement `Ping(A, 2)`: the view
`(2, A, B)`, acknowledged. -/
def ackedAB : ViewServer :=
  (Ping unackedAB 3 { Me := "A", Viewnum := 2 }).1

/-- The keys of the `times` map are pairwise distinct. -/
def KeysNodup (vs : ViewServer) : Prop :=
  (vs.times.map Prod.fst).Nodup

/-- A server other than the primary and the backup of `view` whose recorded
ping is less than `DeadPings * PingInterval` old at time `now`. -/
def LiveSpare (cfg : Timing) (vs : ViewServer) (now : Int) (view : View) (k : String) : Prop :=
  ∃ t, timesGet vs.times k = some t ∧ now - t < cfg.PingInterval * cfg.DeadPings ∧
    k ≠ view.Primary ∧ k ≠ view.Backup

/-- Run a list of `Ping` calls from the server `me`, each at its own time
with its own view number. -/
def pingsFrom (vs : ViewServer) (me : String) (sched : List (Int × Nat)) : ViewServer :=
  sched.foldl (fun s p => (Ping s p.1 { Me := me, Viewnum := p.2 }).1) vs

/-- The state `ackedAB` after a third server pinged at time 5: the view is
still `(2, A, B)` and the map of ping times is `A: 3, B: 2, C: 5`. -/
def idleC : ViewServer :=
  (Ping ackedAB 5 { Me := "C", Viewnum := 0 }).1

/-- Run a list of ticks, each at its own time with its own range order. -/
def ticks (cfg : Timing) (vs : ViewServer) (sched : List (Int × List (String × Int))) : ViewServer :=
  sched.foldl (fun s p => tick cfg s p.1 p.2) vs

end ViewService

namespace PaxosLib

/-- A Go `interface{}` value: `nil` or a payload. -/
abbrev Value := Option String

structure Agreement where
  Seq : Int
  Decided : Bool
  Value : Value
deriving DecidableEq, Repr

structure Accept where
  Seq : Int
  Value : Value
deriving DecidableEq, Repr

/-- The zero value `Accept{}`. -/
def Accept.zero : Accept := { Seq := 0, Value := none }

structure PrepareArgs where
  Seq : Int
deriving DecidableEq, Repr

structure PrepareReply where
  OK : Bool
  Err : String
  Accept : PaxosLib.Accept
deriving DecidableEq, Repr

/-- The zero value `PrepareReply{}`, which a reply holds until a call fills it. -/
def PrepareReply.zero : PrepareReply := { OK := false, Err := "", Accept := Accept.zero }

structure AcceptArgs where
  Seq : Int
  Value : Value
deriving DecidableEq, Repr

structure AcceptReply where
  OK : Bool
  Accept : PaxosLib.Accept
  Err : String
deriving DecidableEq, Repr

/-- The zero value `AcceptReply{}`. -/
def AcceptReply.zero : AcceptReply := { OK := false, Accept := Accept.zero, Err := "" }

structure DecideArgs where
  Seq : Int
  Value : Value
deriving DecidableEq, Repr

/-- The data of a `Paxos` peer that the handlers read and write. -/
structure Paxos where
  instances : Int → Option Agreement
  agreements : Int → Option Agreement
  maxPrepare : Int
  accept : Accept

/-- Assignment `m[seq] = a` on a map of agreements. -/
def mapSet (m : Int → Option Agreement) (seq : Int) (a : Agreement) : Int → Option Agreement :=
  fun k => if k = seq then some a else m k

/-- The peer state `Make` initialises. -/
def Make : Paxos :=
  { instances := fun _ => none, agreements := fun _ => none,
    accept := Accept.zero, maxPrepare := -1 }

/-- `Done(seq)`: the body is empty. -/
def Paxos.Done (px : Paxos) (_seq : Int) : Paxos := px

/-- `Max()`. -/
def Paxos.Max (px : Paxos) : Int := px.maxPrepare

/-- `Min()`: the body is `return 0`. -/
def Paxos.Min (_px : Paxos) : Int := 0

/-- `Status(seq)`. -/
def Paxos.Status (px : Paxos) (seq : Int) : Bool × Value :=
  match px.instances seq with
  | none => (false, none)
  | some agreement => (agreement.Decided, agreement.Value)

/-- The `Accept` RPC handler. -/
def Paxos.Accept (px : Paxos) (args : AcceptArgs) : Paxos × AcceptReply :=
  if args.Seq ≥ px.maxPrepare then
    ({ px with
        maxPrepare := args.Seq,
        accept := { Seq := args.Seq, Value := args.Value },
        agreements := mapSet px.agreements args.Seq
          ({ Seq := args.Seq, Decided := false, Value := args.Value } : Agreement) },
     { AcceptReply.zero with OK := true })
  else
    (px, { AcceptReply.zero with OK := false })

/-- The `Prepare` RPC handler. -/
def Paxos.Prepare (px : Paxos) (args : PrepareArgs) : Paxos × PrepareReply :=
  if args.Seq > px.maxPrepare then
    ({ px with maxPrepare := args.Seq },
     { PrepareReply.zero with OK := true, Accept := px.accept })
  else
    (px, { PrepareReply.zero with OK := false })

/-- The `Decide` RPC handler. -/
def Paxos.Decide (px : Paxos) (args : DecideArgs) : Paxos :=
  { px with
      instances := mapSet px.instances args.Seq
        ({ Seq := args.Seq, Value := args.Value, Decided := true } : Agreement) }

/-- What the transport does with one `call`: the request is handled and the
reply returned; the request is discarded; or the request is handled and the
reply discarded. In the last two cases the caller's reply struct keeps its
zero value. -/
inductive Delivery
  | delivered
  | requestLost
  | replyLost
deriving DecidableEq, Repr

/-- An RPC a proposer sent: the index of the destination peer and the arguments. -/
inductive Msg
  | prepare (peer : Nat) (args : PrepareArgs)
  | accept (peer : Nat) (args : AcceptArgs)
  | decide (peer : Nat) (args : DecideArgs)
deriving DecidableEq, Repr

/-- `call(peers[i], "Paxos.Prepare", args, &reply)`. -/
def callPrepare (peers : List Paxos) (i : Nat) (d : Delivery) (args : PrepareArgs) :
    List Paxos × PrepareReply :=
  match d, peers.get? i with
  | Delivery.requestLost, _ => (peers, PrepareReply.zero)
  | _, none => (peers, PrepareReply.zero)
  | Delivery.replyLost, some px => (peers.set i (px.Prepare args).1, PrepareReply.zero)
  | Delivery.delivered, some px => (peers.set i (px.Prepare args).1, (px.Prepare args).2)

/-- `call(peers[i], "Paxos.Accept", args, &reply)`. -/
def callAccept (peers : List Paxos) (i : Nat) (d : Delivery) (args : AcceptArgs) :
    List Paxos × AcceptReply :=
  match d, peers.get? i with
  | Delivery.requestLost, _ => (peers, AcceptReply.zero)
  | _, none => (peers, AcceptReply.zero)
  | Delivery.replyLost, some px => (peers.set i (px.Accept args).1, AcceptReply.zero)
  | Delivery.delivered, some px => (peers.set i (px.Accept args).1, (px.Accept args).2)

/-- `call(peers[i], "Paxos.Decide", args, &reply)`. -/
def callDecide (peers : List Paxos) (i : Nat) (d : Delivery) (args : DecideArgs) : List Paxos :=
  match d, peers.get? i with
  | Delivery.requestLost, _ => peers
  | _, none => peers
  | _, some px => peers.set i (px.Decide args)

/-- The first counting loop of `SendPrepare`: the number of OK replies and
`highestAccept`, which starts as `Accept{Value: value}`. -/
def countPrepareReplies (value : Value) (replies : List PrepareReply) : Nat × Accept :=
  replies.foldl
    (fun acc reply =>
      if reply.OK then
        (acc.1 + 1, if reply.Accept.Seq > acc.2.Seq then reply.Accept else acc.2)
      else acc)
    (0, { Seq := 0, Value := value })

/-- The second counting loop of `SendPrepare`: the number of OK replies. -/
def countAccepted (replies : List AcceptReply) : Nat :=
  replies.foldl (fun n reply => if reply.OK then n + 1 else n) 0

/-- Where a running `SendPrepare` stands. -/
inductive Phase
  | prepare
  | accept
  | decide
  | done
deriving DecidableEq, Repr

/-- The local variables of one running `SendPrepare(seq, value)`; `next` is
the index of the peer the current loop calls next. -/
structure Proposer where
  seq : Int
  value : Value
  phase : Phase
  next : Nat
  replies : List PrepareReply
  highestAccept : Accept
  acceptedReplies : List AcceptReply
deriving DecidableEq, Repr

/-- The proposer `Start(seq, v)` spawns with `go px.SendPrepare(seq, v)`. -/
def Proposer.start (seq : Int) (v : Value) : Proposer :=
  { seq := seq, value := v, phase := Phase.prepare, next := 0, replies := [],
    highestAccept := { Seq := 0, Value := v }, acceptedReplies := [] }

/-- One step of `SendPrepare`: the next `call` of the running loop, or, once
a loop has called every peer, the count and the test that follow it. -/
def Proposer.step (p : Proposer) (peers : List Paxos) (d : Delivery) :
    Proposer × List Paxos × List Msg :=
  match p.phase with
  | Phase.prepare =>
    if p.next < peers.length then
      let args : PrepareArgs := { Seq := p.seq }
      let r := callPrepare peers p.next d args
      ({ p with next := p.next + 1, replies := p.replies ++ [r.2] }, r.1,
       [Msg.prepare p.next args])
    else
      let c := countPrepareReplies p.value p.replies
      if c.1 < peers.length / 2 then
        ({ p with phase := Phase.done, highestAccept := c.2 }, peers, [])
      else
        ({ p with phase := Phase.accept, next := 0, highestAccept := c.2 }, peers, [])
  | Phase.accept =>
    if p.next < peers.length then
      let acceptArgs : AcceptArgs := { Seq := p.seq, Value := p.highestAccept.Value }
      let r := callAccept peers p.next d acceptArgs
      ({ p with next := p.next + 1, acceptedReplies := p.acceptedReplies ++ [r.2] }, r.1,
       [Msg.accept p.next acceptArgs])
    else
      if countAccepted p.acceptedReplies < peers.length / 2 then
        ({ p with phase := Phase.done }, peers, [])
      else
        ({ p with phase := Phase.decide, next := 0 }, peers, [])
  | Phase.decide =>
    if p.next < peers.length then
      let decideArgs : DecideArgs := { Seq := p.seq, Value := p.highestAccept.Value }
      ({ p with next := p.next + 1 }, callDecide peers p.next d decideArgs,
       [Msg.decide p.next decideArgs])
    else
      ({ p with phase := Phase.done }, peers, [])
  | Phase.done => (p, peers, [])

/-- A fixed set of peers, the proposers started so far, and the RPCs sent. -/
structure Net where
  peers : List Paxos
  proposers : List Proposer
  sent : List Msg

/-- The net of `n` freshly made peers. -/
def Net.init (n : Nat) : Net :=
  { peers := List.replicate n Make, proposers := [], sent := [] }

/-- `Start(seq, v)` on some peer: a new proposer joins. -/
def Net.Start (net : Net) (seq : Int) (v : Value) : Net :=
  { net with proposers := net.proposers ++ [Proposer.start seq v] }

/-- Proposer number `k` takes its next step, the transport treating the call
as `d`; the handlers run atomically. -/
def Net.step (net : Net) (k : Nat) (d : Delivery) : Net :=
  match net.proposers.get? k with
  | none => net
  | some p =>
    { peers := (p.step net.peers d).2.1,
      proposers := net.proposers.set k (p.step net.peers d).1,
      sent := net.sent ++ (p.step net.peers d).2.2 }

/-- An interleaving: which proposer moves next, and how its call is delivered. -/
def Net.run (net : Net) (sched : List (Nat × Delivery)) : Net :=
  sched.foldl (fun s e => s.step e.1 e.2) net

/-- `Status(seq)` on peer `i`. -/
def Net.Status (net : Net) (i : Nat) (seq : Int) : Option (Bool × Value) :=
  (net.peers.get? i).map (fun px => px.Status seq)

/-- The schedule in which proposer `k` makes `n` steps, every call delivered. -/
def solo (k n : Nat) : List (Nat × Delivery) :=
  List.replicate n (k, Delivery.delivered)

/-- A fresh peer after it handled `Prepare(seq)`. -/
def promisedPeer (seq : Int) : Paxos :=
  (Make.Prepare { Seq := seq }).1

/-- A fresh peer after it handled `Prepare(seq)` and `Accept(seq, v)`. -/
def acceptedPeer (seq : Int) (v : Value) : Paxos :=
  ((promisedPeer seq).Accept { Seq := seq, Value := v }).1

/-- A fresh peer after it handled `Prepare(seq)`, `Accept(seq, v)` and
`Decide(seq, v)`. -/
def decidedPeer (seq : Int) (v : Value) : Paxos :=
  (acceptedPeer seq v).Decide { Seq := seq, Value := v }

/-- A lone proposer of `(seq, v)` on `n` peers inside its first loop, `k`
peers called: these have handled `Prepare`, the others are fresh. -/
def PrepState (seq : Int) (v : Value) (n k : Nat) (net : Net) : Prop :=
  (∃ m, k + m = n ∧
    net.peers = List.replicate k (promisedPeer seq) ++ List.replicate m Make) ∧
  ∃ p, net.proposers = [p] ∧ p.seq = seq ∧ p.value = v ∧ p.phase = Phase.prepare ∧
    p.next = k ∧ p.replies = List.replicate k (Make.Prepare { Seq := seq }).2 ∧
    p.acceptedReplies = []

/-- The same proposer inside its second loop, `k` peers called. -/
def AccState (seq : Int) (v : Value) (n k : Nat) (net : Net) : Prop :=
  (∃ m, k + m = n ∧
    net.peers = List.replicate k (acceptedPeer seq v) ++ List.replicate m (promisedPeer seq)) ∧
  ∃ p, net.proposers = [p] ∧ p.seq = seq ∧ p.highestAccept.Value = v ∧
    p.phase = Phase.accept ∧ p.next = k ∧
    p.acceptedReplies =
      List.replicate k ((promisedPeer seq).Accept { Seq := seq, Value := v }).2

/-- The same proposer inside its third loop, `k` peers called. -/
def DecState (seq : Int) (v : Value) (n k : Nat) (net : Net) : Prop :=
  (∃ m, k + m = n ∧
    net.peers = List.replicate k (decidedPeer seq v) ++ List.replicate m (acceptedPeer seq v)) ∧
  ∃ p, net.proposers = [p] ∧ p.seq = seq ∧ p.highestAccept.Value = v ∧
    p.phase = Phase.decide ∧ p.next = k

/-- The same proposer after it returned. -/
def DoneState (seq : Int) (v : Value) (n : Nat) (net : Net) : Prop :=
  net.peers = List.replicate n (decidedPeer seq v) ∧
  ∃ p, net.proposers = [p] ∧ p.phase = Phase.done

/-- One RPC a peer handles. -/
inductive Call
  | prepare (args : PrepareArgs)
  | accept (args : AcceptArgs)
  | decide (args : DecideArgs)
deriving DecidableEq, Repr

/-- The peer after it handled one RPC. -/
def Paxos.handle (px : Paxos) (c : Call) : Paxos :=
  match c with
  | Call.prepare args => (px.Prepare args).1
  | Call.accept args => (px.Accept args).1
  | Call.decide args => px.Decide args

/-- The peer after it handled a sequence of RPCs, each atomically. -/
def Paxos.handleAll (px : Paxos) (calls : List Call) : Paxos :=
  calls.foldl Paxos.handle px

/-- The schedule of one proposer on three peers in which the Prepare and
Accept calls reach peer 0 only and the Decide calls reach every peer. -/
def decideReachesAll : List (Nat × Delivery) :=
  [(0, Delivery.delivered), (0, Delivery.requestLost), (0, Delivery.requestLost),
   (0, Delivery.delivered),
   (0, Delivery.delivered), (0, Delivery.requestLost), (0, Delivery.requestLost),
   (0, Delivery.delivered),
   (0, Delivery.delivered), (0, Delivery.delivered), (0, Delivery.delivered),
   (0, Delivery.delivered)]

/-- Three fresh peers and `Start(9, "a")`, run as `decideReachesAll`. -/
def decideOnlyNet : Net :=
  ((Net.init 3).Start 9 (some "a")).run decideReachesAll

/-- An interleaving of two proposers on three peers: proposer 0 prepares
peer 0; proposer 1 prepares peers 0, 1, 2; proposer 0 prepares peers 1, 2;
both count their replies; proposer 0 sends its three Accepts and counts;
proposer 1 sends its three Accepts and counts; proposer 0 sends Decide to
peer 0; proposer 1 sends Decide to peers 0, 1, 2; proposer 0 sends Decide to
peers 1, 2; both return. Every call is delivered. -/
def contended : List (Nat × Delivery) :=
  solo 0 1 ++ solo 1 3 ++ solo 0 2 ++ solo 0 1 ++ solo 1 1 ++ solo 0 4 ++ solo 1 4 ++
  solo 0 1 ++ solo 1 3 ++ solo 0 2 ++ solo 0 1 ++ solo 1 1

/-- Three fresh peers, `Start(9, "a")` and `Start(9, "b")`, run as `contended`. -/
def contendedNet : Net :=
  (((Net.init 3).Start 9 (some "a")).Start 9 (some "b")).run contended

/-- The schedule of one proposer on three peers of which only peer 0 is
reached: in each of the three loops the calls to peers 1 and 2 are lost. -/
def lone : List (Nat × Delivery) :=
  [(0, Delivery.delivered), (0, Delivery.requestLost), (0, Delivery.requestLost),
   (0, Delivery.delivered),
   (0, Delivery.delivered), (0, Delivery.requestLost), (0, Delivery.requestLost),
   (0, Delivery.delivered),
   (0, Delivery.delivered), (0, Delivery.requestLost), (0, Delivery.requestLost),
   (0, Delivery.delivered)]

/-- Three fresh peers and `Start(9, "a")`, run as `lone`. -/
def loneNet : Net :=
  ((Net.init 3).Start 9 (some "a")).run lone

/-- Three fresh peers after `Start(9, "a")` has run to the end, every call
delivered: 3 Prepares, the count, 3 Accepts, the count, 3 Decides, return. -/
def afterNine : Net :=
  ((Net.init 3).Start 9 (some "a")).run (solo 0 12)

/-- The net `afterNine` after `Start(10, "b")` has run to the end, every call
delivered. -/
def afterTen : Net :=
  (afterNine.Start 10 (some "b")).run (solo 1 12)

/-- Three fresh peers, each of which calls `Done(5)`, after which
`Start(6, "v")` runs to the end with every call delivered. -/
def afterDone : Net :=
  (({ peers := (Net.init 3).peers.map (fun px => px.Done 5), proposers := [], sent := [] } :
      Net).Start 6 (some "v")).run (solo 0 12)

end PaxosLib

namespace PBService

/-- The `Err` constants of pbservice/common.go. -/
def OK : String := "OK"

def ErrNoKey : String := "ErrNoKey"

def ErrWrongServer : String := "ErrWrongServer"

structure PutArgs where
  Key : String
  Value : String
deriving DecidableEq, Repr

structure PutReply where
  Err : String
deriving DecidableEq, Repr

structure GetArgs where
  Key : String
deriving DecidableEq, Repr

structure GetReply where
  Err : String
  Value : String
deriving DecidableEq, Repr

structure ForwardArgs where
  Key : String
  Value : String
deriving DecidableEq, Repr

structure ForwardReply where
  Err : String
deriving DecidableEq, Repr

structure BackupArgs where
  Values : String → Option String

structure BackupReply where
  Err : String
deriving DecidableEq, Repr

/-- The data of a `PBServer` that the handlers read and write; `values[k]`
is `none` for an absent key. -/
structure PBServer where
  me : String
  view : ViewService.View
  values : String → Option String

/-- Assignment `values[key] = value`. -/
def valuesSet (values : String → Option String) (key value : String) : String → Option String :=
  fun k => if k = key then some value else values k

/-- The state `StartServer` builds for the replica named `me`. -/
def StartServer (me : String) : PBServer :=
  { me := me, view := ViewService.View.zero, values := fun _ => none }

/-- The `Get` RPC handler. -/
def PBServer.Get (pb : PBServer) (args : GetArgs) : PBServer × GetReply :=
  if pb.view.Primary ≠ pb.me then
    (pb, { Err := ErrWrongServer, Value := "" })
  else
    match pb.values args.Key with
    | none => (pb, { Err := ErrNoKey, Value := "" })
    | some val => (pb, { Err := OK, Value := val })

/-- What `Put` returns to its caller and does to the outside: the replica
after the call, the reply, and the `Forward` call it made, if any, as the
destination and the arguments. -/
structure PutResult where
  pb : PBServer
  reply : PutReply
  forwarded : Option (String × ForwardArgs)

/-- The `Put` RPC handler. `forwardOk` is the boolean the `call` to the
backup returns, `true` when the backup responded; the handler does not
read it. -/
def PBServer.Put (pb : PBServer) (args : PutArgs) (_forwardOk : Bool) : PutResult :=
  if pb.view.Primary ≠ pb.me then
    { pb := pb, reply := { Err := ErrWrongServer }, forwarded := none }
  else
    let pb1 : PBServer := { pb with values := valuesSet pb.values args.Key args.Value }
    let forwarded : Option (String × ForwardArgs) :=
      if pb1.view.Backup ≠ "" then
        some (pb1.view.Backup, { Key := args.Key, Value := args.Value })
      else none
    { pb := pb1, reply := { Err := OK }, forwarded := forwarded }

/-- The `Forward` RPC handler. -/
def PBServer.Forward (pb : PBServer) (args : ForwardArgs) : PBServer × ForwardReply :=
  ({ pb with values := valuesSet pb.values args.Key args.Value }, { Err := OK })

/-- The `Backup` RPC handler. -/
def PBServer.Backup (pb : PBServer) (args : BackupArgs) : PBServer × BackupReply :=
  ({ pb with values := args.Values }, { Err := OK })

/-- What `tick` does: the replica after the call and the `Backup` call it
made, if any, as the destination and the arguments. -/
structure TickResult where
  pb : PBServer
  backupCall : Option (String × BackupArgs)

/-- The periodic `tick` of a replica. `result` is the view `pb.vs.Ping`
returned for `pb.view.Viewnum`; `backupOk` is the boolean the `call` to the
new backup returns, which the function does not read. -/
def PBServer.tick (pb : PBServer) (result : ViewService.View) (_backupOk : Bool) : TickResult :=
  if result.Viewnum ≠ pb.view.Viewnum then
    let backupCall : Option (String × BackupArgs) :=
      if result.Backup ≠ "" ∧ pb.me = result.Primary then
        some (result.Backup, { Values := pb.values })
      else none
    { pb := { pb with view := result }, backupCall := backupCall }
  else
    { pb := pb, backupCall := none }

/-- Modelled from the spec: `Clerk.Ping` is defined in viewservice/client.go,
which is not among the sources. `Ping(me, viewnum) → View`: the clerk of the
replica `me` sends `PingArgs{me, viewnum}` to the view server and returns the
view of the reply. The call is taken as delivered. -/
def ClerkPing (vs : ViewService.ViewServer) (me : String) (now : Int) (viewnum : Nat) :
    ViewService.ViewServer × ViewService.View :=
  ((ViewService.Ping vs now { Me := me, Viewnum := viewnum }).1,
   (ViewService.Ping vs now { Me := me, Viewnum := viewnum }).2.View)

/-- One view server and the replicas, addressed by name; a replica that has
not run yet is in the state `StartServer` builds. -/
structure Cluster where
  vs : ViewService.ViewServer
  pbs : String → PBServer

/-- Replace the replica named `n`. -/
def pbsSet (pbs : String → PBServer) (n : String) (pb : PBServer) : String → PBServer :=
  fun m => if m = n then pb else pbs m

/-- The cluster of a fresh view server and fresh replicas. -/
def Cluster.start : Cluster :=
  { vs := ViewService.StartServer, pbs := fun n => StartServer n }

/-- The `Backup` call of a tick reaches its destination when `ok`. -/
def deliverBackup (pbs : String → PBServer) (call : Option (String × BackupArgs)) (ok : Bool) :
    String → PBServer :=
  match call, ok with
  | some (dest, args), true => pbsSet pbs dest ((pbs dest).Backup args).1
  | _, _ => pbs

/-- The `Forward` call of a `Put` reaches its destination when `ok`. -/
def deliverForward (pbs : String → PBServer) (call : Option (String × ForwardArgs)) (ok : Bool) :
    String → PBServer :=
  match call, ok with
  | some (dest, args), true => pbsSet pbs dest ((pbs dest).Forward args).1
  | _, _ => pbs

/-- The tick of the replica named `n` at time `now`: it pings the view
server with its stored view number and runs `tick` on the view replied. -/
def Cluster.pbTick (c : Cluster) (n : String) (now : Int) (backupOk : Bool) : Cluster :=
  let r := ClerkPing c.vs (c.pbs n).me now (c.pbs n).view.Viewnum
  let t := (c.pbs n).tick r.2 backupOk
  { vs := r.1, pbs := deliverBackup (pbsSet c.pbs n t.pb) t.backupCall backupOk }

/-- A client `Put` handled by the replica named `n`. -/
def Cluster.put (c : Cluster) (n : String) (args : PutArgs) (forwardOk : Bool) : Cluster :=
  let r := (c.pbs n).Put args forwardOk
  { vs := c.vs, pbs := deliverForward (pbsSet c.pbs n r.pb) r.forwarded forwardOk }

/-- The tick of the view server. -/
def Cluster.vsTick (cfg : ViewService.Timing) (c : Cluster) (now : Int)
    (order : List (String × Int)) : Cluster :=
  { vs := ViewService.tick cfg c.vs now order, pbs := c.pbs }

/-- The executions of one view server and replicas with non-empty names:
ticks of the view server, ticks of the replicas, and client `Put`s, in any
order, each call atomic. -/
inductive ClusterReachable (cfg : ViewService.Timing) : Cluster → Prop
  | start : ClusterReachable cfg Cluster.start
  | vsTick (c : Cluster) (now : Int) (order : List (String × Int)) :
      ClusterReachable cfg c → order.Perm c.vs.times →
        ClusterReachable cfg (c.vsTick cfg now order)
  | pbTick (c : Cluster) (n : String) (now : Int) (backupOk : Bool) :
      ClusterReachable cfg c → n ≠ "" → ClusterReachable cfg (c.pbTick n now backupOk)
  | put (c : Cluster) (n : String) (args : PutArgs) (forwardOk : Bool) :
      ClusterReachable cfg c → n ≠ "" → ClusterReachable cfg (c.put n args forwardOk)

/-- A view a replica may hold: one with an empty primary, or the view the
server has stored under that number. -/
def ViewOK (vs : ViewService.ViewServer) (w : ViewService.View) : Prop :=
  w.Primary = "" ∨ (w.Viewnum ≤ vs.currentView ∧ w = vs.views w.Viewnum)

/-- The invariant of the cluster. -/
def ClusterInv (c : Cluster) : Prop :=
  ViewService.Inv c.vs ∧ ∀ n, (c.pbs n).me = n ∧ ViewOK c.vs (c.pbs n).view

/-- The cluster after replica `A` ticked twice, replica `B` ticked, and `A`
ticked again: the view server holds `(2, A, B)` and both replicas store it. -/
def twoReplicas : Cluster :=
  (((Cluster.start.pbTick "A" 0 true).pbTick "A" 1 true).pbTick "B" 2 true).pbTick "A" 3 true

/-- A replica `A` whose stored view is `(1, A, "")`. -/
def soloA : PBServer :=
  { me := "A", view := { Viewnum := 1, Primary := "A", Backup := "" },
    values := fun _ => none }

/-- A replica `B` whose stored view is `(2, A, B)`. -/
def backupB : PBServer :=
  { me := "B", view := { Viewnum := 2, Primary := "A", Backup := "B" },
    values := fun _ => none }

/-- A replica `A` whose stored view is `(2, A, B)`. -/
def primaryA : PBServer :=
  { me := "A", view := { Viewnum := 2, Primary := "A", Backup := "B" },
    values := fun _ => none }

end PBService

namespace LockService

structure LockRecord where
  client : Int
  request : Int
  result : Bool
deriving DecidableEq, Repr

/-- The zero value `LockRecord{}`, which a read of an absent key returns. -/
def LockRecord.zero : LockRecord := { client := 0, request := 0, result := false }

/-- Modelled from the spec: `LockArgs` is declared in lockservice/common.go,
which is not among the sources; the fields are those the handlers and the
clerk use. -/
structure LockArgs where
  Lockname : String
  ClientId : Int
  RequestId : Int
deriving DecidableEq, Repr

/-- Modelled from the spec: `UnlockArgs` is declared in lockservice/common.go. -/
structure UnlockArgs where
  Lockname : String
  ClientId : Int
  RequestId : Int
deriving DecidableEq, Repr

/-- Modelled from the spec: `LockReply` is declared in lockservice/common.go. -/
structure LockReply where
  OK : Bool
deriving DecidableEq, Repr

/-- Modelled from the spec: `UnlockReply` is declared in lockservice/common.go. -/
structure UnlockReply where
  OK : Bool
deriving DecidableEq, Repr

/-- The data of a `LockServer` that the handlers read and write. `locks[name]`
reads `false` for an absent name; `requests[c]` is `none` for an absent
client. -/
structure LockServer where
  am_primary : Bool
  backup : String
  locks : String → Bool
  requests : Int → Option LockRecord

/-- Assignment `locks[name] = b`. -/
def locksSet (locks : String → Bool) (name : String) (b : Bool) : String → Bool :=
  fun k => if k = name then b else locks k

/-- Assignment `requests[c] = record`. -/
def requestsSet (requests : Int → Option LockRecord) (c : Int) (record : LockRecord) :
    Int → Option LockRecord :=
  fun k => if k = c then some record else requests k

/-- The state `StartServer` builds. -/
def StartServer (backup : String) (am_primary : Bool) : LockServer :=
  { am_primary := am_primary, backup := backup, locks := fun _ => false,
    requests := fun _ => none }

/-- What `Lock` does: the server after the call, the reply, and the call to
the backup it made, if any, as the destination and the arguments. -/
structure LockResult where
  ls : LockServer
  reply : LockReply
  forwarded : Option (String × LockArgs)

/-- The `Lock` RPC handler. `forwardOk` is the boolean the `call` to the
backup returns, which the handler does not read. -/
def LockServer.Lock (ls : LockServer) (args : LockArgs) (_forwardOk : Bool) : LockResult :=
  let locked := ls.locks args.Lockname
  let record := (ls.requests args.ClientId).getD LockRecord.zero
  let present := (ls.requests args.ClientId).isSome
  let forwarded : Option (String × LockArgs) :=
    if ls.am_primary then some (ls.backup, args) else none
  let r : Bool × (String → Bool) :=
    if present = true ∧ record.request = args.RequestId then
      (record.result, ls.locks)
    else
      if locked then (false, ls.locks)
      else (true, locksSet ls.locks args.Lockname true)
  let record : LockRecord :=
    { client := args.ClientId, request := args.RequestId, result := r.1 }
  { ls := { ls with locks := r.2,
                    requests := requestsSet ls.requests args.ClientId record },
    reply := { OK := r.1 }, forwarded := forwarded }

/-- What `Unlock` does, as for `Lock`. -/
structure UnlockResult where
  ls : LockServer
  reply : UnlockReply
  forwarded : Option (String × UnlockArgs)

/-- The `Unlock` RPC handler. -/
def LockServer.Unlock (ls : LockServer) (args : UnlockArgs) (_forwardOk : Bool) : UnlockResult :=
  let locked := ls.locks args.Lockname
  let record := (ls.requests args.ClientId).getD LockRecord.zero
  let present := (ls.requests args.ClientId).isSome
  let forwarded : Option (String × UnlockArgs) :=
    if ls.am_primary then some (ls.backup, args) else none
  let r : Bool × (String → Bool) :=
    if present = true ∧ record.request = args.RequestId then
      (record.result, ls.locks)
    else
      if locked then (true, locksSet ls.locks args.Lockname false)
      else (false, ls.locks)
  let record : LockRecord :=
    { client := args.ClientId, request := args.RequestId, result := r.1 }
  { ls := { ls with locks := r.2,
                    requests := requestsSet ls.requests args.ClientId record },
    reply := { OK := r.1 }, forwarded := forwarded }

/-- A request a server receives. -/
inductive Request
  | lock (args : LockArgs)
  | unlock (args : UnlockArgs)
deriving DecidableEq, Repr

/-- The client a request comes from. -/
def Request.ClientId (q : Request) : Int :=
  match q with
  | Request.lock args => args.ClientId
  | Request.unlock args => args.ClientId

/-- The server after it handled one request. -/
def LockServer.handle (ls : LockServer) (q : Request × Bool) : LockServer :=
  match q.1 with
  | Request.lock args => (ls.Lock args q.2).ls
  | Request.unlock args => (ls.Unlock args q.2).ls

/-- The server after it handled a sequence of requests, each atomically, each
with its own outcome of the call to the backup. -/
def LockServer.handleAll (ls : LockServer) (qs : List (Request × Bool)) : LockServer :=
  qs.foldl LockServer.handle ls

/-- The backup after the `Lock` call the primary made reached it. -/
def forwardLock (call : Option (String × LockArgs)) (b : LockServer) : LockServer :=
  match call with
  | some (_, args) => (b.Lock args false).ls
  | none => b

/-- The backup after the `Unlock` call the primary made reached it. -/
def forwardUnlock (call : Option (String × UnlockArgs)) (b : LockServer) : LockServer :=
  match call with
  | some (_, args) => (b.Unlock args false).ls
  | none => b

/-- A fresh primary whose backup listens on `B`. -/
def freshPrimary : LockServer := StartServer "B" true

/-- A fresh backup. -/
def freshBackup : LockServer := StartServer "B" false

/-- The fresh primary after client 1 took the lock `a` with request 0. -/
def heldA : LockServer :=
  (freshPrimary.Lock { Lockname := "a", ClientId := 1, RequestId := 0 } true).ls

end LockService

/-! ## Theorems: ViewService -/

namespace ViewService

/-- The returned view keeps the view number or bumps it by one. -/
theorem UpdateView_viewnum (view : View) (server : String) (c : Nat) :
    (UpdateView view server c).1.Viewnum = view.Viewnum ∨
    (UpdateView view server c).1.Viewnum = view.Viewnum + 1 := by
  unfold UpdateView
  simp only
  split_ifs <;> simp_all

theorem Inv_start : Inv StartServer := by
  simp [Inv, StartServer, viewsSet, View.zero]

theorem Inv_Ping (vs : ViewServer) (now : Int) (args : PingArgs) (h : Inv vs) :
    Inv (Ping vs now args).1 := by
  obtain ⟨h1, h2, h3⟩ := h
  have hv := UpdateView_viewnum (vs.views vs.currentView) args.Me args.Viewnum
  unfold Ping
  simp only
  split_ifs with ha hb hb
  · rw [ha.2] at hv
    simp [Inv, viewsSet]
    omega
  · rw [ha.2] at hv
    simp [Inv]
    omega
  · simp [Inv, viewsSet]
    omega
  · simp [Inv]
    omega

theorem Inv_tick (cfg : Timing) (vs : ViewServer) (now : Int) (order : List (String × Int))
    (h : Inv vs) : Inv (tick cfg vs now order) := by
  obtain ⟨h1, h2, h3⟩ := h
  unfold tick
  simp only
  split_ifs with ha hb hc
  · exact ⟨h1, h2, h3⟩
  · simp [Inv, viewsSet]
    omega
  · simp [Inv, viewsSet]
    omega
  · exact ⟨h1, h2, h3⟩

theorem Inv_reachable (cfg : Timing) (vs : ViewServer) (h : Reachable cfg vs) : Inv vs := by
  induction h with
  | start => exact Inv_start
  | ping vs now args _ ih => exact Inv_Ping vs now args ih
  | tick vs now order _ _ ih => exact Inv_tick cfg vs now order ih

/-- C1 (VS-Ack-Gate): in every state reachable from `StartServer` by `Ping`
and `tick` calls, `primaryAck ≤ currentView ≤ primaryAck + 1`. -/
theorem VS_ack_gate (cfg : Timing) (vs : ViewServer) (h : Reachable cfg vs) :
    vs.primaryAck ≤ vs.currentView ∧ vs.currentView ≤ vs.primaryAck + 1 :=
  (Inv_reachable cfg vs h).2

theorem VS_ack_gate_witness :
    (Ping StartServer 7 { Me := "A", Viewnum := 0 }).1.primaryAck ≤
      (Ping StartServer 7 { Me := "A", Viewnum := 0 }).1.currentView ∧
    (Ping StartServer 7 { Me := "A", Viewnum := 0 }).1.currentView ≤
      (Ping StartServer 7 { Me := "A", Viewnum := 0 }).1.primaryAck + 1 :=
  VS_ack_gate { PingInterval := 100, DeadPings := 5 } _
    (Reachable.ping StartServer 7 { Me := "A", Viewnum := 0 } Reachable.start)

/-- What `UpdateView` over unbounded view numbers returns, by cases on the
view and on the restart test. -/
theorem UpdateView_algebra (v : Nat) (p b s : String) (c : Nat) :
    (UpdateView { Viewnum := v, Primary := p, Backup := b } s c).1 =
      (if (if c = 0 ∧ v > 1 ∧ s = p then "" else p) = "" ∧ b ≠ "" then
        { Viewnum := v + 1, Primary := b, Backup := s }
      else if (if c = 0 ∧ v > 1 ∧ s = p then "" else p) = "" ∧ b = "" then
        { Viewnum := v + 1, Primary := s, Backup := "" }
      else if (if c = 0 ∧ v > 1 ∧ s = p then "" else p) ≠ "" ∧ b = "" ∧ s ≠ p then
        { Viewnum := v + 1, Primary := p, Backup := s }
      else { Viewnum := v, Primary := p, Backup := b }) := by
  unfold UpdateView
  simp only
  split_ifs <;> simp_all

/-- The primary `UpdateView` returns is the old primary, the old backup, or,
when the view had neither, the pinging server. -/
theorem UpdateView_primary (view : View) (server : String) (c : Nat) :
    (UpdateView view server c).1.Primary = view.Primary ∨
    (UpdateView view server c).1.Primary = view.Backup ∨
    (view.Primary = "" ∧ view.Backup = "" ∧ (UpdateView view server c).1.Primary = server) := by
  unfold UpdateView
  simp only
  split_ifs <;> simp_all

/-- C2, as stated, fails on the first view: the first `Ping` on a fresh server
replaces view 0, which has neither primary nor backup, by view 1 whose
primary is the pinging server. -/
theorem VS_continuity_counterexample :
    (Ping StartServer 0 { Me := "A", Viewnum := 0 }).1.currentView = 1 ∧
    StartServer.currentView = 0 ∧
    Get StartServer = { Viewnum := 0, Primary := "", Backup := "" } ∧
    Get (Ping StartServer 0 { Me := "A", Viewnum := 0 }).1 =
      { Viewnum := 1, Primary := "A", Backup := "" } ∧
    ¬ ((Get (Ping StartServer 0 { Me := "A", Viewnum := 0 }).1).Primary =
          (Get StartServer).Primary ∨
       (Get (Ping StartServer 0 { Me := "A", Viewnum := 0 }).1).Primary =
          (Get StartServer).Backup) := by
  decide

/-- C2 (VS-Continuity, amended): in a reachable state, a `Ping` or a `tick`
that changes the current view installs a view numbered one more whose primary
is the primary or the backup of the replaced view, except that a `Ping`
replacing a view with neither primary nor backup installs the pinging
server as primary. -/
theorem VS_continuity (cfg : Timing) (vs : ViewServer) (h : Reachable cfg vs) :
    (∀ (now : Int) (args : PingArgs),
      (Ping vs now args).1.currentView ≠ vs.currentView →
        (Get (Ping vs now args).1).Viewnum = (Get vs).Viewnum + 1 ∧
        ((Get (Ping vs now args).1).Primary = (Get vs).Primary ∨
         (Get (Ping vs now args).1).Primary = (Get vs).Backup ∨
         ((Get vs).Primary = "" ∧ (Get vs).Backup = "" ∧
          (Get (Ping vs now args).1).Primary = args.Me))) ∧
    (∀ (now : Int) (order : List (String × Int)),
      (tick cfg vs now order).currentView ≠ vs.currentView →
        (Get (tick cfg vs now order)).Viewnum = (Get vs).Viewnum + 1 ∧
        ((Get (tick cfg vs now order)).Primary = (Get vs).Primary ∨
         (Get (tick cfg vs now order)).Primary = (Get vs).Backup)) := by
  obtain ⟨h1, -, -⟩ := Inv_reachable cfg vs h
  constructor
  · intro now args
    have hv := UpdateView_viewnum (vs.views vs.currentView) args.Me args.Viewnum
    have hp := UpdateView_primary (vs.views vs.currentView) args.Me args.Viewnum
    unfold Ping Get
    simp only
    split_ifs
    all_goals first
      | (intro hne; exact absurd rfl hne)
      | (intro _; simp only [viewsSet, if_true]; exact ⟨by omega, hp⟩)
  · intro now order
    unfold tick Get
    simp only
    split_ifs with ha hb hc
    · intro hne; exact absurd rfl hne
    · intro _; simp [viewsSet]
    · intro _; simp [viewsSet]
    · intro hne; exact absurd rfl hne

theorem VS_continuity_witness :
    (Ping ackedA 2 { Me := "B", Viewnum := 0 }).1.currentView ≠ ackedA.currentView ∧
    (Get (Ping ackedA 2 { Me := "B", Viewnum := 0 }).1).Viewnum = (Get ackedA).Viewnum + 1 ∧
    ((Get (Ping ackedA 2 { Me := "B", Viewnum := 0 }).1).Primary = (Get ackedA).Primary ∨
      (Get (Ping ackedA 2 { Me := "B", Viewnum := 0 }).1).Primary = (Get ackedA).Backup ∨
      ((Get ackedA).Primary = "" ∧ (Get ackedA).Backup = "" ∧
        (Get (Ping ackedA 2 { Me := "B", Viewnum := 0 }).1).Primary = "B")) :=
  ⟨by decide,
   (VS_continuity { PingInterval := 100, DeadPings := 5 } ackedA
      (Reachable.ping _ 1 { Me := "A", Viewnum := 1 }
        (Reachable.ping _ 0 { Me := "A", Viewnum := 0 } Reachable.start))).1
      2 { Me := "B", Viewnum := 0 } (by decide)⟩

/-- C9 fails on the code: in the reachable state with view `(2, A, B)` not yet
acknowledged, a `Ping(A, 0)` installs nothing and replies `(2, "", B)`, while
the current view, which `Get` returns, is still `(2, A, B)`. -/
theorem Ping_reply_not_current_view :
    Reachable { PingInterval := 100, DeadPings := 5 } unackedAB ∧
    (Ping unackedAB 3 { Me := "A", Viewnum := 0 }).2.View =
      { Viewnum := 2, Primary := "", Backup := "B" } ∧
    Get (Ping unackedAB 3 { Me := "A", Viewnum := 0 }).1 =
      { Viewnum := 2, Primary := "A", Backup := "B" } ∧
    Get unackedAB = { Viewnum := 2, Primary := "A", Backup := "B" } ∧
    (Ping unackedAB 3 { Me := "A", Viewnum := 0 }).2.View ≠
      Get (Ping unackedAB 3 { Me := "A", Viewnum := 0 }).1 :=
  ⟨Reachable.ping _ 2 { Me := "B", Viewnum := 0 }
      (Reachable.ping _ 1 { Me := "A", Viewnum := 1 }
        (Reachable.ping _ 0 { Me := "A", Viewnum := 0 } Reachable.start)),
   by decide, by decide, by decide, by decide⟩

/-- A tick before the acknowledgement returns the state it was given. -/
theorem tick_unacked (cfg : Timing) (vs : ViewServer) (now : Int)
    (order : List (String × Int)) (h : vs.primaryAck < vs.currentView) :
    tick cfg vs now order = vs := by
  unfold tick
  simp only [if_pos h]

theorem ticks_unacked (cfg : Timing) (sched : List (Int × List (String × Int)))
    (vs : ViewServer) (h : vs.primaryAck < vs.currentView) :
    ticks cfg vs sched = vs := by
  induction sched with
  | nil => rfl
  | cons p rest ih =>
    have hstep : ticks cfg vs (p :: rest) = ticks cfg (tick cfg vs p.1 p.2) rest := rfl
    rw [hstep, tick_unacked cfg vs p.1 p.2 h, ih]

/-- C10: while `primaryAck < currentView` a tick leaves the whole state
unchanged, whatever the clock reads; and after a single `Ping(A, 0)` on a
fresh server the current view is `(1, A, "")` and any run of ticks, at any
times and with any range orders, leaves the state as it is. -/
theorem tick_waits_for_ack (cfg : Timing) :
    (∀ (vs : ViewServer) (now : Int) (order : List (String × Int)),
      vs.primaryAck < vs.currentView → tick cfg vs now order = vs) ∧
    (∀ (A : String) (t : Int) (sched : List (Int × List (String × Int))),
      Get (Ping StartServer t { Me := A, Viewnum := 0 }).1 =
        { Viewnum := 1, Primary := A, Backup := "" } ∧
      ticks cfg (Ping StartServer t { Me := A, Viewnum := 0 }).1 sched =
        (Ping StartServer t { Me := A, Viewnum := 0 }).1 ∧
      Get (ticks cfg (Ping StartServer t { Me := A, Viewnum := 0 }).1 sched) =
        { Viewnum := 1, Primary := A, Backup := "" }) := by
  refine ⟨fun vs now order h => tick_unacked cfg vs now order h, ?_⟩
  intro A t sched
  have hget : Get (Ping StartServer t { Me := A, Viewnum := 0 }).1 =
      { Viewnum := 1, Primary := A, Backup := "" } := by
    simp [Ping, Get, StartServer, UpdateView, viewsSet, View.zero]
  have hlt : (Ping StartServer t { Me := A, Viewnum := 0 }).1.primaryAck <
      (Ping StartServer t { Me := A, Viewnum := 0 }).1.currentView := by
    simp [Ping, StartServer, UpdateView, viewsSet, View.zero]
  have hticks := ticks_unacked cfg sched _ hlt
  refine ⟨hget, hticks, ?_⟩
  rw [hticks]
  exact hget

theorem tick_waits_for_ack_witness :
    unackedAB.primaryAck < unackedAB.currentView ∧
    tick { PingInterval := 100, DeadPings := 5 } unackedAB 1000000 [("B", 2), ("A", 1)] =
      unackedAB :=
  ⟨by decide,
   (tick_waits_for_ack { PingInterval := 100, DeadPings := 5 }).1 unackedAB 1000000
      [("B", 2), ("A", 1)] (by decide)⟩

end ViewService

/-! ## Theorems: PBService -/

namespace PBService

/-- C4, as stated, fails on the code: on a primary whose view has the backup
`B`, `Put` makes the `Forward` call and replies `OK` although the call
failed. -/
theorem Put_OK_though_forward_failed :
    primaryA.view.Primary = primaryA.me ∧ primaryA.view.Backup ≠ "" ∧
    (primaryA.Put { Key := "x", Value := "1" } false).forwarded =
      some ("B", { Key := "x", Value := "1" }) ∧
    (primaryA.Put { Key := "x", Value := "1" } false).reply.Err = OK := by
  decide

/-- C4 (amended): on a replica whose stored view names it primary and has a
non-empty backup, `Put` stores the value, makes the `Forward` call to the
backup with the same key and value, and replies `OK` whether or not that
call succeeded. -/
theorem Put_forwards_and_replies_OK (pb : PBServer) (args : PutArgs) (forwardOk : Bool)
    (hp : pb.view.Primary = pb.me) (hb : pb.view.Backup ≠ "") :
    (pb.Put args forwardOk).reply.Err = OK ∧
    (pb.Put args forwardOk).forwarded =
      some (pb.view.Backup, { Key := args.Key, Value := args.Value }) ∧
    (pb.Put args forwardOk).pb.values args.Key = some args.Value ∧
    (pb.Put args forwardOk).pb.view = pb.view := by
  simp [PBServer.Put, hp, hb, valuesSet]

theorem Put_forwards_and_replies_OK_witness :
    (primaryA.Put { Key := "x", Value := "1" } false).reply.Err = OK ∧
    (primaryA.Put { Key := "x", Value := "1" } false).forwarded =
      some (primaryA.view.Backup, { Key := "x", Value := "1" }) ∧
    (primaryA.Put { Key := "x", Value := "1" } false).pb.values "x" = some "1" ∧
    (primaryA.Put { Key := "x", Value := "1" } false).pb.view = primaryA.view :=
  Put_forwards_and_replies_OK primaryA { Key := "x", Value := "1" } false
    (by decide) (by decide)

end PBService

/-! ## Theorems: Paxos -/

namespace PaxosLib

/-- The test after the first loop of `SendPrepare`: once every peer has been
called, the proposer goes on to send Accept exactly when the number of OK
replies is at least `len(peers) / 2`, rounded down. -/
theorem prepare_threshold (p : Proposer) (peers : List Paxos) (d : Delivery)
    (hphase : p.phase = Phase.prepare) (hnext : ¬ p.next < peers.length) :
    ((p.step peers d).1.phase = Phase.accept ↔
      peers.length / 2 ≤ (countPrepareReplies p.value p.replies).1) ∧
    ((p.step peers d).1.phase = Phase.done ↔
      (countPrepareReplies p.value p.replies).1 < peers.length / 2) := by
  unfold Proposer.step
  simp only [hphase, hnext, if_false]
  split_ifs with h
  · simp [h]
  · simp [h, Nat.le_of_not_lt h]

/-- The test after the second loop of `SendPrepare`: the proposer goes on to
send Decide exactly when the number of OK replies to Accept is at least
`len(peers) / 2`, rounded down. -/
theorem accept_threshold (p : Proposer) (peers : List Paxos) (d : Delivery)
    (hphase : p.phase = Phase.accept) (hnext : ¬ p.next < peers.length) :
    ((p.step peers d).1.phase = Phase.decide ↔
      peers.length / 2 ≤ countAccepted p.acceptedReplies) ∧
    ((p.step peers d).1.phase = Phase.done ↔
      countAccepted p.acceptedReplies < peers.length / 2) := by
  unfold Proposer.step
  simp only [hphase, hnext, if_false]
  split_ifs with h
  · simp [h]
  · simp [h, Nat.le_of_not_lt h]

/-- C3 fails on the code: three fresh peers, `Start(9, "a")` and
`Start(9, "b")`, every call delivered, the handlers atomic, the two
proposers interleaved as in `contended`. Both proposers run to the end, and
peer 0 reports instance 9 decided with `"b"` while peers 1 and 2 report it
decided with `"a"`. -/
theorem Agreement_violated :
    (contendedNet.proposers.map (fun p => p.phase)) = [Phase.done, Phase.done] ∧
    contendedNet.Status 0 9 = some (true, some "b") ∧
    contendedNet.Status 1 9 = some (true, some "a") ∧
    contendedNet.Status 2 9 = some (true, some "a") ∧
    contendedNet.Status 0 9 ≠ contendedNet.Status 1 9 := by
  decide

/-- C5 fails on the code: with three peers, of which only peer 0 receives the
proposer's calls, one OK reply to Prepare is enough for `SendPrepare` to send
Accept to every peer, and one OK reply to Accept is enough for it to send
Decide to every peer. -/
theorem Quorum_of_one_suffices :
    loneNet.peers.length = 3 ∧
    (loneNet.proposers.map
      (fun p => (countPrepareReplies p.value p.replies).1)) = [1] ∧
    (loneNet.proposers.map (fun p => countAccepted p.acceptedReplies)) = [1] ∧
    1 < (3 + 1) / 2 + 1 ∧
    loneNet.sent =
      [Msg.prepare 0 { Seq := 9 }, Msg.prepare 1 { Seq := 9 }, Msg.prepare 2 { Seq := 9 },
       Msg.accept 0 { Seq := 9, Value := some "a" },
       Msg.accept 1 { Seq := 9, Value := some "a" },
       Msg.accept 2 { Seq := 9, Value := some "a" },
       Msg.decide 0 { Seq := 9, Value := some "a" },
       Msg.decide 1 { Seq := 9, Value := some "a" },
       Msg.decide 2 { Seq := 9, Value := some "a" }] ∧
    loneNet.Status 0 9 = some (true, some "a") := by
  decide

/-- C6 fails on the code: after instance 9 was decided with `"a"`, no peer
has accepted or decided anything for instance 10; `Start(10, "b")` then
sends Accept for instance 10 with the value `"a"`, and instance 10 is
decided with `"a"`. -/
theorem Value_taken_from_other_instance :
    (afterNine.peers.map (fun px => (px.agreements 10, px.instances 10))) =
      [(none, none), (none, none), (none, none)] ∧
    (afterNine.peers.map (fun px => px.accept)) =
      [{ Seq := 9, Value := some "a" }, { Seq := 9, Value := some "a" },
       { Seq := 9, Value := some "a" }] ∧
    (afterTen.sent.drop 9) =
      [Msg.prepare 0 { Seq := 10 }, Msg.prepare 1 { Seq := 10 }, Msg.prepare 2 { Seq := 10 },
       Msg.accept 0 { Seq := 10, Value := some "a" },
       Msg.accept 1 { Seq := 10, Value := some "a" },
       Msg.accept 2 { Seq := 10, Value := some "a" },
       Msg.decide 0 { Seq := 10, Value := some "a" },
       Msg.decide 1 { Seq := 10, Value := some "a" },
       Msg.decide 2 { Seq := 10, Value := some "a" }] ∧
    afterTen.Status 0 10 = some (true, some "a") := by
  decide

/-- C7 fails on the code: `Done` changes nothing and `Min` returns 0, so
after each of three peers has called `Done(5)`, and after a further
agreement has carried messages between all of them, `Min()` is 0 on every
peer, not 6. -/
theorem Min_is_zero_after_Done :
    (∀ (px : Paxos) (seq : Int), (px.Done seq).Min = 0) ∧
    (afterDone.peers.map (fun px => px.Min)) = [0, 0, 0] ∧
    (afterDone.peers.map (fun px => px.Status 6)) =
      [(true, some "v"), (true, some "v"), (true, some "v")] := by
  refine ⟨fun _ _ => rfl, ?_, ?_⟩ <;> decide

end PaxosLib

/-! ## Theorems: ViewService, view transitions -/

namespace ViewService

/-- The backup `UpdateView` returns differs from a non-empty old primary,
unless the primary itself pings with view number 0 in a view numbered above
1 that has a backup: then the result is `(v+1, old backup, old primary)`. -/
theorem UpdateView_backup (view : View) (server : String) (c : Nat)
    (hp : view.Primary ≠ "")
    (hch : (UpdateView view server c).1.Viewnum ≠ view.Viewnum) :
    (UpdateView view server c).1.Backup ≠ view.Primary ∨
    (c = 0 ∧ view.Viewnum > 1 ∧ server = view.Primary ∧ view.Backup ≠ "" ∧
      (UpdateView view server c).1 =
        { Viewnum := view.Viewnum + 1, Primary := view.Backup, Backup := view.Primary }) := by
  revert hch
  unfold UpdateView
  simp only
  split_ifs with h1 h2 h3 h4 <;> simp_all
  · exact fun h => hp h.symm
  · rename_i hb
    exact fun h => hb.2 h.symm

/-- What `findBackup` returns is never a non-empty primary of the view. -/
theorem findBackup_ne_primary (cfg : Timing) (now : Int) (order : List (String × Int))
    (view : View) (hp : view.Primary ≠ "") :
    findBackup cfg now order view ≠ view.Primary := by
  induction order with
  | nil => simpa [findBackup] using Ne.symm hp
  | cons e rest ih =>
    obtain ⟨key, value⟩ := e
    unfold findBackup
    split_ifs with h
    · exact h.2.1
    · exact ih

/-- C11, as stated, fails on the code: in the reachable state with the
acknowledged view `(2, A, B)`, the primary `A` pings with view number 0 and
the server installs `(3, B, A)`, whose backup is the outgoing primary. -/
theorem VS_backup_counterexample :
    Reachable { PingInterval := 100, DeadPings := 5 } ackedAB ∧
    Get ackedAB = { Viewnum := 2, Primary := "A", Backup := "B" } ∧
    Get (Ping ackedAB 4 { Me := "A", Viewnum := 0 }).1 =
      { Viewnum := 3, Primary := "B", Backup := "A" } ∧
    (Get ackedAB).Primary ≠ "" ∧
    (Get (Ping ackedAB 4 { Me := "A", Viewnum := 0 }).1).Backup = (Get ackedAB).Primary :=
  ⟨Reachable.ping _ 3 { Me := "A", Viewnum := 2 }
    (Reachable.ping _ 2 { Me := "B", Viewnum := 0 }
      (Reachable.ping _ 1 { Me := "A", Viewnum := 1 }
        (Reachable.ping _ 0 { Me := "A", Viewnum := 0 } Reachable.start))),
   by decide, by decide, by decide, by decide⟩

/-- C11 (amended): in a reachable state whose current view has a non-empty
primary, a `tick` that changes the view installs a backup other than the
outgoing primary, and so does a `Ping` that changes the view, except a
`Ping` from the outgoing primary itself with view number 0 while the view is
numbered above 1 and has a backup: that installs
`(v+1, old backup, old primary)`. -/
theorem VS_backup_not_old_primary (cfg : Timing) (vs : ViewServer) (h : Reachable cfg vs)
    (hp : (Get vs).Primary ≠ "") :
    (∀ (now : Int) (args : PingArgs),
      (Ping vs now args).1.currentView ≠ vs.currentView →
        (Get (Ping vs now args).1).Backup ≠ (Get vs).Primary ∨
        (args.Viewnum = 0 ∧ (Get vs).Viewnum > 1 ∧ args.Me = (Get vs).Primary ∧
          (Get vs).Backup ≠ "" ∧
          Get (Ping vs now args).1 =
            { Viewnum := (Get vs).Viewnum + 1, Primary := (Get vs).Backup,
              Backup := (Get vs).Primary })) ∧
    (∀ (now : Int) (order : List (String × Int)),
      (tick cfg vs now order).currentView ≠ vs.currentView →
        (Get (tick cfg vs now order)).Backup ≠ (Get vs).Primary) := by
  obtain ⟨h1, -, -⟩ := Inv_reachable cfg vs h
  constructor
  · intro now args
    have hb := UpdateView_backup (vs.views vs.currentView) args.Me args.Viewnum hp
    revert hb
    unfold Ping Get
    simp only
    split_ifs with ha hb hb
    all_goals first
      | (intro _ hne; exact absurd rfl hne)
      | (intro hb _
         simp only [viewsSet, if_true]
         apply hb
         rw [h1]
         first | exact hb.1 | assumption)
  · intro now order
    have hf := findBackup_ne_primary cfg now order (vs.views vs.currentView) hp
    unfold tick Get
    simp only
    split_ifs
    all_goals first
      | (intro hne; exact absurd rfl hne)
      | (intro _; simpa [viewsSet] using hf)

theorem VS_backup_not_old_primary_witness :
    (Ping ackedA 2 { Me := "B", Viewnum := 0 }).1.currentView ≠ ackedA.currentView ∧
    ((Get (Ping ackedA 2 { Me := "B", Viewnum := 0 }).1).Backup ≠ (Get ackedA).Primary ∨
      ((0 : Nat) = 0 ∧ (Get ackedA).Viewnum > 1 ∧ "B" = (Get ackedA).Primary ∧
        (Get ackedA).Backup ≠ "" ∧
        Get (Ping ackedA 2 { Me := "B", Viewnum := 0 }).1 =
          { Viewnum := (Get ackedA).Viewnum + 1, Primary := (Get ackedA).Backup,
            Backup := (Get ackedA).Primary })) :=
  ⟨by decide,
   (VS_backup_not_old_primary { PingInterval := 100, DeadPings := 5 } ackedA
      (Reachable.ping _ 1 { Me := "A", Viewnum := 1 }
        (Reachable.ping _ 0 { Me := "A", Viewnum := 0 } Reachable.start))
      (by decide)).1 2 { Me := "B", Viewnum := 0 } (by decide)⟩

/-- C13 (VS-Monotonicity): in a reachable state every `Ping` and every `tick`
leaves `currentView` unchanged or increases it by exactly one. -/
theorem VS_monotone (cfg : Timing) (vs : ViewServer) (h : Reachable cfg vs) :
    (∀ (now : Int) (args : PingArgs),
      (Ping vs now args).1.currentView = vs.currentView ∨
      (Ping vs now args).1.currentView = vs.currentView + 1) ∧
    (∀ (now : Int) (order : List (String × Int)),
      (tick cfg vs now order).currentView = vs.currentView ∨
      (tick cfg vs now order).currentView = vs.currentView + 1) := by
  obtain ⟨h1, -, -⟩ := Inv_reachable cfg vs h
  constructor
  · intro now args
    have hv := UpdateView_viewnum (vs.views vs.currentView) args.Me args.Viewnum
    rw [h1] at hv
    unfold Ping
    simp only
    split_ifs
    all_goals first
      | exact Or.inl rfl
      | (simp only; omega)
  · intro now order
    unfold tick
    simp only
    split_ifs
    all_goals first
      | exact Or.inl rfl
      | (right; simp only [h1])

theorem VS_monotone_witness :
    (Ping ackedA 2 { Me := "B", Viewnum := 0 }).1.currentView = ackedA.currentView ∨
    (Ping ackedA 2 { Me := "B", Viewnum := 0 }).1.currentView = ackedA.currentView + 1 :=
  (VS_monotone { PingInterval := 100, DeadPings := 5 } ackedA
    (Reachable.ping _ 1 { Me := "A", Viewnum := 1 }
      (Reachable.ping _ 0 { Me := "A", Viewnum := 0 } Reachable.start))).1
    2 { Me := "B", Viewnum := 0 }

/-- The keys of the map after `times[key] = t` are the old keys and `key`. -/
theorem mem_keys_timesSet (times : List (String × Int)) (key : String) (t : Int) (x : String) :
    x ∈ (timesSet times key t).map Prod.fst ↔ x ∈ times.map Prod.fst ∨ x = key := by
  induction times with
  | nil => simp [timesSet]
  | cons e rest ih =>
    obtain ⟨k, t0⟩ := e
    unfold timesSet
    split_ifs with hk
    · subst hk
      simp only [List.map_cons, List.mem_cons]
      tauto
    · simp only [List.map_cons, List.mem_cons, ih]
      tauto

theorem nodup_keys_timesSet (times : List (String × Int)) (key : String) (t : Int)
    (h : (times.map Prod.fst).Nodup) : ((timesSet times key t).map Prod.fst).Nodup := by
  induction times with
  | nil => simp [timesSet]
  | cons e rest ih =>
    obtain ⟨k, t0⟩ := e
    rw [List.map_cons, List.nodup_cons] at h
    unfold timesSet
    split_ifs with hk
    · rw [List.map_cons, List.nodup_cons]
      exact h
    · rw [List.map_cons, List.nodup_cons]
      refine ⟨?_, ih h.2⟩
      rw [mem_keys_timesSet]
      rintro (hm | he)
      · exact h.1 hm
      · exact hk he

/-- Reading a key of a map with distinct keys gives the value of its entry. -/
theorem timesGet_of_mem (times : List (String × Int)) (key : String) (t : Int)
    (h : (times.map Prod.fst).Nodup) (hm : (key, t) ∈ times) :
    timesGet times key = some t := by
  induction times with
  | nil => cases hm
  | cons e rest ih =>
    obtain ⟨k, t0⟩ := e
    rw [List.map_cons, List.nodup_cons] at h
    unfold timesGet
    rcases List.mem_cons.1 hm with he | hr
    · cases he
      simp
    · have hne : k ≠ key := by
        intro hk
        apply h.1
        rw [hk]
        exact List.mem_map.2 ⟨(key, t), hr, rfl⟩
      rw [if_neg hne]
      exact ih h.2 hr

theorem mem_of_timesGet (times : List (String × Int)) (key : String) (t : Int)
    (h : timesGet times key = some t) : (key, t) ∈ times := by
  induction times with
  | nil => simp [timesGet] at h
  | cons e rest ih =>
    obtain ⟨k, t0⟩ := e
    unfold timesGet at h
    split_ifs at h with hk
    · cases h
      subst hk
      exact List.mem_cons_self _ _
    · exact List.mem_cons_of_mem _ (ih h)

theorem KeysNodup_reachable (cfg : Timing) (vs : ViewServer) (h : Reachable cfg vs) :
    KeysNodup vs := by
  induction h with
  | start => simp [KeysNodup, StartServer]
  | ping vs now args _ ih =>
    have hk := nodup_keys_timesSet vs.times args.Me now ih
    unfold Ping KeysNodup
    simp only
    split_ifs <;> exact hk
  | tick vs now order _ _ ih =>
    unfold tick KeysNodup
    simp only
    split_ifs <;> exact ih

/-- What `findBackup` returns when it ranges over `order`: an entry of
`order` that passes its test if there is one, and `""` otherwise. -/
theorem findBackup_spec (cfg : Timing) (now : Int) (order : List (String × Int)) (view : View) :
    ((∃ k t, (k, t) ∈ order ∧ now - t < cfg.PingInterval * cfg.DeadPings ∧
        k ≠ view.Primary ∧ k ≠ view.Backup) →
      ∃ t, (findBackup cfg now order view, t) ∈ order ∧
        now - t < cfg.PingInterval * cfg.DeadPings ∧
        findBackup cfg now order view ≠ view.Primary ∧
        findBackup cfg now order view ≠ view.Backup) ∧
    ((¬ ∃ k t, (k, t) ∈ order ∧ now - t < cfg.PingInterval * cfg.DeadPings ∧
        k ≠ view.Primary ∧ k ≠ view.Backup) →
      findBackup cfg now order view = "") := by
  induction order with
  | nil => simp [findBackup]
  | cons e rest ih =>
    obtain ⟨key, value⟩ := e
    unfold findBackup
    split_ifs with hc
    · refine ⟨fun _ => ⟨value, List.mem_cons_self _ _, hc⟩, fun hn => ?_⟩
      exact absurd ⟨key, value, List.mem_cons_self _ _, hc⟩ hn
    · constructor
      · rintro ⟨k, t, hm, hlive⟩
        rcases List.mem_cons.1 hm with he | hr
        · cases he
          exact absurd hlive hc
        · obtain ⟨t1, hm1, h1⟩ := ih.1 ⟨k, t, hr, hlive⟩
          exact ⟨t1, List.mem_cons_of_mem _ hm1, h1⟩
      · intro hn
        apply ih.2
        rintro ⟨k, t, hr, hlive⟩
        exact hn ⟨k, t, List.mem_cons_of_mem _ hr, hlive⟩

/-- C12: in a reachable state with `primaryAck = currentView = v` whose
primary has a recorded ping older than `DeadPings * PingInterval`, a tick
writes exactly the view `(v+1, old backup, nb)` under number `v+1` and makes
it current, leaving everything else; `nb` is a server other than the old
primary and backup whose recorded ping is less than
`DeadPings * PingInterval` old if there is one, and `""` if there is none.
Nothing is assumed of the old backup: when it is `""` the new primary is. -/
theorem tick_replaces_dead_primary (cfg : Timing) (vs : ViewServer) (h : Reachable cfg vs)
    (now : Int) (order : List (String × Int)) (hperm : order.Perm vs.times) (pt : Int)
    (hack : vs.primaryAck = vs.currentView)
    (hpt : timesGet vs.times (Get vs).Primary = some pt)
    (hdead : now - pt > cfg.PingInterval * cfg.DeadPings) :
    tick cfg vs now order =
      { times := vs.times, primaryAck := vs.primaryAck,
        currentView := vs.currentView + 1,
        views := viewsSet vs.views (vs.currentView + 1)
          { Viewnum := vs.currentView + 1, Primary := (Get vs).Backup,
            Backup := findBackup cfg now order (Get vs) } } ∧
    ((∃ k, LiveSpare cfg vs now (Get vs) k) →
      LiveSpare cfg vs now (Get vs) (findBackup cfg now order (Get vs))) ∧
    ((¬ ∃ k, LiveSpare cfg vs now (Get vs) k) →
      findBackup cfg now order (Get vs) = "") := by
  obtain ⟨h1, -, -⟩ := Inv_reachable cfg vs h
  have hk := KeysNodup_reachable cfg vs h
  have hspec := findBackup_spec cfg now order (Get vs)
  refine ⟨?_, ?_, ?_⟩
  · unfold Get at hpt
    unfold tick Get
    simp only [hpt, Option.getD_some, Option.isSome_some, true_and]
    rw [if_neg (by omega), if_pos hdead, h1]
  · rintro ⟨k, t, hget, hlive⟩
    obtain ⟨t1, hm1, hl1⟩ :=
      hspec.1 ⟨k, t, hperm.mem_iff.2 (mem_of_timesGet _ _ _ hget), hlive⟩
    exact ⟨t1, timesGet_of_mem _ _ _ hk (hperm.mem_iff.1 hm1), hl1⟩
  · intro hn
    apply hspec.2
    rintro ⟨k, t, hm, hlive⟩
    exact hn ⟨k, t, timesGet_of_mem _ _ _ hk (hperm.mem_iff.1 hm), hlive⟩

theorem tick_replaces_dead_primary_witness :
    Get (tick { PingInterval := 100, DeadPings := 5 } idleC 504 idleC.times) =
      { Viewnum := 3, Primary := "B", Backup := "C" } ∧
    LiveSpare { PingInterval := 100, DeadPings := 5 } idleC 504 (Get idleC)
      (findBackup { PingInterval := 100, DeadPings := 5 } 504 idleC.times (Get idleC)) :=
  ⟨by decide,
   (tick_replaces_dead_primary { PingInterval := 100, DeadPings := 5 } idleC
      (Reachable.ping _ 5 { Me := "C", Viewnum := 0 }
        (Reachable.ping _ 3 { Me := "A", Viewnum := 2 }
          (Reachable.ping _ 2 { Me := "B", Viewnum := 0 }
            (Reachable.ping _ 1 { Me := "A", Viewnum := 1 }
              (Reachable.ping _ 0 { Me := "A", Viewnum := 0 } Reachable.start)))))
      504 idleC.times (List.Perm.refl _) 3 (by decide) (by decide) (by decide)).2.1
      ⟨"C", 5, by decide, by decide, by decide, by decide⟩⟩

/-- A `Ping` from a server other than the primary, on a view that has both a
primary and a backup, installs nothing. -/
theorem Ping_idle (vs : ViewServer) (now : Int) (args : PingArgs)
    (hv : (Get vs).Viewnum = vs.currentView)
    (hp : (Get vs).Primary ≠ "") (hb : (Get vs).Backup ≠ "")
    (hne : args.Me ≠ (Get vs).Primary) :
    (Ping vs now args).1.currentView = vs.currentView ∧
    (Ping vs now args).1.views = vs.views := by
  unfold Get at hv hp hb hne
  have hu : (UpdateView (vs.views vs.currentView) args.Me args.Viewnum).1.Viewnum =
      vs.currentView := by
    unfold UpdateView
    simp only
    split_ifs <;> simp_all
  unfold Ping
  simp only [hu, ne_eq, not_true_eq_false, false_and, if_false, and_self]

theorem pingsFrom_idle (me : String) (sched : List (Int × Nat)) (vs : ViewServer)
    (hv : (Get vs).Viewnum = vs.currentView)
    (hp : (Get vs).Primary ≠ "") (hb : (Get vs).Backup ≠ "")
    (hne : me ≠ (Get vs).Primary) :
    Get (pingsFrom vs me sched) = Get vs := by
  induction sched generalizing vs with
  | nil => rfl
  | cons e rest ih =>
    have hstep : pingsFrom vs me (e :: rest) =
        pingsFrom (Ping vs e.1 { Me := me, Viewnum := e.2 }).1 me rest := rfl
    obtain ⟨hc, hw⟩ := Ping_idle vs e.1 { Me := me, Viewnum := e.2 } hv hp hb hne
    have hg : Get (Ping vs e.1 { Me := me, Viewnum := e.2 }).1 = Get vs := by
      unfold Get
      rw [hc, hw]
    rw [hstep, ih _ (by rw [hg, hc]; exact hv) (by rw [hg]; exact hp)
      (by rw [hg]; exact hb) (by rw [hg]; exact hne), hg]

/-- C14 (initial-view scenario): for distinct non-empty servers `A`, `B`, `C`
and a fresh server, after `Ping(A,0)`, `Ping(B,0)`, `Ping(C,0)` the current
view is `(1, A, "")`; after the acknowledgement `Ping(A,1)` and a further
`Ping` from `B`, with any view number, it is `(2, A, B)`; and any run of
later pings from `C`, with any view numbers, leaves it `(2, A, B)`. The
times of the calls are arbitrary; of `C` only `C ≠ A` is used. -/
theorem VS_initial_view_scenario (A B C : String)
    (hA : A ≠ "") (hB : B ≠ "") (hAB : A ≠ B) (hAC : A ≠ C)
    (t1 t2 t3 t4 t5 : Int) (n : Nat) (sched : List (Int × Nat)) :
    Get (Ping (Ping (Ping StartServer t1 { Me := A, Viewnum := 0 }).1
        t2 { Me := B, Viewnum := 0 }).1 t3 { Me := C, Viewnum := 0 }).1 =
      { Viewnum := 1, Primary := A, Backup := "" } ∧
    Get (Ping (Ping (Ping (Ping (Ping StartServer t1 { Me := A, Viewnum := 0 }).1
        t2 { Me := B, Viewnum := 0 }).1 t3 { Me := C, Viewnum := 0 }).1
        t4 { Me := A, Viewnum := 1 }).1 t5 { Me := B, Viewnum := n }).1 =
      { Viewnum := 2, Primary := A, Backup := B } ∧
    Get (pingsFrom (Ping (Ping (Ping (Ping (Ping StartServer t1 { Me := A, Viewnum := 0 }).1
        t2 { Me := B, Viewnum := 0 }).1 t3 { Me := C, Viewnum := 0 }).1
        t4 { Me := A, Viewnum := 1 }).1 t5 { Me := B, Viewnum := n }).1 C sched) =
      { Viewnum := 2, Primary := A, Backup := B } := by
  have hBA : B ≠ A := Ne.symm hAB
  have hCA : C ≠ A := Ne.symm hAC
  have h3 : Get (Ping (Ping (Ping StartServer t1 { Me := A, Viewnum := 0 }).1
        t2 { Me := B, Viewnum := 0 }).1 t3 { Me := C, Viewnum := 0 }).1 =
      { Viewnum := 1, Primary := A, Backup := "" } := by
    simp [Ping, Get, StartServer, UpdateView, viewsSet, View.zero, hA, hB, hAB, hAC, hBA, hCA]
  have h5 : Get (Ping (Ping (Ping (Ping (Ping StartServer t1 { Me := A, Viewnum := 0 }).1
        t2 { Me := B, Viewnum := 0 }).1 t3 { Me := C, Viewnum := 0 }).1
        t4 { Me := A, Viewnum := 1 }).1 t5 { Me := B, Viewnum := n }).1 =
      { Viewnum := 2, Primary := A, Backup := B } := by
    simp [Ping, Get, StartServer, UpdateView, viewsSet, View.zero, hA, hB, hAB, hAC, hBA, hCA]
  have hc5 : (Ping (Ping (Ping (Ping (Ping StartServer t1 { Me := A, Viewnum := 0 }).1
        t2 { Me := B, Viewnum := 0 }).1 t3 { Me := C, Viewnum := 0 }).1
        t4 { Me := A, Viewnum := 1 }).1 t5 { Me := B, Viewnum := n }).1.currentView = 2 := by
    simp [Ping, StartServer, UpdateView, viewsSet, View.zero, hA, hB, hAB, hAC, hBA, hCA]
  refine ⟨h3, h5, ?_⟩
  rw [pingsFrom_idle C sched _ (by rw [h5, hc5]) (by rw [h5]; exact hA)
    (by rw [h5]; exact hB) (by rw [h5]; exact hCA)]
  exact h5

theorem VS_initial_view_scenario_witness :
    Get (Ping (Ping (Ping StartServer 1 { Me := "A", Viewnum := 0 }).1
        2 { Me := "B", Viewnum := 0 }).1 3 { Me := "C", Viewnum := 0 }).1 =
      { Viewnum := 1, Primary := "A", Backup := "" } ∧
    Get (Ping (Ping (Ping (Ping (Ping StartServer 1 { Me := "A", Viewnum := 0 }).1
        2 { Me := "B", Viewnum := 0 }).1 3 { Me := "C", Viewnum := 0 }).1
        4 { Me := "A", Viewnum := 1 }).1 5 { Me := "B", Viewnum := 1 }).1 =
      { Viewnum := 2, Primary := "A", Backup := "B" } ∧
    Get (pingsFrom (Ping (Ping (Ping (Ping (Ping StartServer 1 { Me := "A", Viewnum := 0 }).1
        2 { Me := "B", Viewnum := 0 }).1 3 { Me := "C", Viewnum := 0 }).1
        4 { Me := "A", Viewnum := 1 }).1 5 { Me := "B", Viewnum := 1 }).1 "C"
        [(6, 0), (7, 2), (8, 1)]) =
      { Viewnum := 2, Primary := "A", Backup := "B" } :=
  VS_initial_view_scenario "A" "B" "C" (by decide) (by decide) (by decide) (by decide)
    1 2 3 4 5 1 [(6, 0), (7, 2), (8, 1)]

end ViewService

/-! ## Theorems: PBService, replicas -/

namespace PBService

/-- C15, as stated, fails on the code: the replica `A` holds view
`(1, A, "")`, the view server returns `(2, A, B)`, the `Backup` call to `B`
fails, and `tick` stores `(2, A, B)` all the same. -/
theorem tick_adopts_though_backup_failed :
    (soloA.tick { Viewnum := 2, Primary := "A", Backup := "B" } false).pb.view =
      { Viewnum := 2, Primary := "A", Backup := "B" } ∧
    (soloA.tick { Viewnum := 2, Primary := "A", Backup := "B" } false).pb.view.Viewnum ≠
      soloA.view.Viewnum ∧
    ((soloA.tick { Viewnum := 2, Primary := "A", Backup := "B" } false).backupCall.map
      Prod.fst) = some "B" := by
  decide

/-- C15 (amended): when the view returned has another number than the stored
one, names this replica primary and has a non-empty backup, `tick` makes the
`Backup` call to that backup with the values it holds and stores the returned
view, whether or not the call succeeded; the values are unchanged. -/
theorem tick_transfers_and_adopts (pb : PBServer) (result : ViewService.View) (backupOk : Bool)
    (hnum : result.Viewnum ≠ pb.view.Viewnum) (hprim : pb.me = result.Primary)
    (hback : result.Backup ≠ "") :
    (pb.tick result backupOk).pb.view = result ∧
    (pb.tick result backupOk).backupCall = some (result.Backup, { Values := pb.values }) ∧
    (pb.tick result backupOk).pb.values = pb.values ∧
    (pb.tick result backupOk).pb.me = pb.me := by
  simp [PBServer.tick, hnum, hprim, hback]

theorem tick_transfers_and_adopts_witness :
    (soloA.tick { Viewnum := 2, Primary := "A", Backup := "B" } false).pb.view =
      { Viewnum := 2, Primary := "A", Backup := "B" } ∧
    (soloA.tick { Viewnum := 2, Primary := "A", Backup := "B" } false).backupCall =
      some ("B", { Values := soloA.values }) ∧
    (soloA.tick { Viewnum := 2, Primary := "A", Backup := "B" } false).pb.values =
      soloA.values ∧
    (soloA.tick { Viewnum := 2, Primary := "A", Backup := "B" } false).pb.me = soloA.me :=
  tick_transfers_and_adopts soloA { Viewnum := 2, Primary := "A", Backup := "B" } false
    (by decide) (by decide) (by decide)

/-- C16 (Put/Get across failover): replica `A` holds a view naming `A` primary
and `B` backup. `A.Put(k, v)` replies `OK` and forwards `(k, v)` to `B`; once
`B` has handled that `Forward` and its `tick` has adopted a view naming `B`
primary, `B.Get(k)` replies `(OK, v)`. -/
theorem Put_Get_across_failover (A B : PBServer) (k v : String)
    (result : ViewService.View) (backupOk : Bool)
    (hA : A.view.Primary = A.me) (hB : A.view.Backup = B.me) (hne : B.me ≠ "")
    (hadopt : result.Viewnum ≠ B.view.Viewnum) (hprim : result.Primary = B.me) :
    (A.Put { Key := k, Value := v } true).reply.Err = OK ∧
    (A.Put { Key := k, Value := v } true).forwarded = some (B.me, { Key := k, Value := v }) ∧
    ((((B.Forward { Key := k, Value := v }).1.tick result backupOk).pb).Get { Key := k }).2 =
      { Err := OK, Value := v } := by
  refine ⟨?_, ?_, ?_⟩
  · simp [PBServer.Put, hA]
  · simp [PBServer.Put, hA, hB, hne]
  · simp [PBServer.Forward, PBServer.tick, PBServer.Get, hadopt, hprim, valuesSet]

theorem Put_Get_across_failover_witness :
    (primaryA.Put { Key := "x", Value := "1" } true).reply.Err = OK ∧
    (primaryA.Put { Key := "x", Value := "1" } true).forwarded =
      some (backupB.me, { Key := "x", Value := "1" }) ∧
    ((((backupB.Forward { Key := "x", Value := "1" }).1.tick
        { Viewnum := 3, Primary := "B", Backup := "" } true).pb).Get { Key := "x" }).2 =
      { Err := OK, Value := "1" } :=
  Put_Get_across_failover primaryA backupB "x" "1"
    { Viewnum := 3, Primary := "B", Backup := "" } true
    (by decide) (by decide) (by decide) (by decide) (by decide)

/-- C18: `Get` replies `ErrWrongServer` exactly when the stored view does not
name the replica primary; on the primary it replies `(OK, value)` for a key
that is present and `ErrNoKey` for one that is absent; it never changes the
replica. -/
theorem Get_replies (pb : PBServer) (args : GetArgs) :
    ((pb.Get args).2.Err = ErrWrongServer ↔ pb.view.Primary ≠ pb.me) ∧
    (pb.view.Primary = pb.me →
      ∀ val, pb.values args.Key = some val → (pb.Get args).2 = { Err := OK, Value := val }) ∧
    (pb.view.Primary = pb.me →
      pb.values args.Key = none → (pb.Get args).2.Err = ErrNoKey) ∧
    (pb.Get args).1 = pb := by
  unfold PBServer.Get
  refine ⟨?_, ?_, ?_, ?_⟩
  · split_ifs with h
    · simp [h]
    · cases hv : pb.values args.Key <;>
        simp [h, ErrWrongServer, ErrNoKey, OK]
  · intro h val hval
    simp [h, hval]
  · intro h hval
    simp [h, hval]
  · split_ifs with h
    · rfl
    · cases hv : pb.values args.Key <;> rfl

theorem Get_replies_witness :
    (primaryA.Get { Key := "x" }).2.Err = ErrNoKey ∧
    (backupB.Get { Key := "x" }).2.Err = ErrWrongServer :=
  ⟨(Get_replies primaryA { Key := "x" }).2.2.1 (by decide) (by decide),
   (Get_replies backupB { Key := "x" }).1.2 (by decide)⟩

/-- The view `UpdateView` leaves in the hands of its caller is the one it was
given, or that view with the primary erased. -/
theorem UpdateView_arg (view : ViewService.View) (server : String) (c : Nat) :
    (ViewService.UpdateView view server c).2.Viewnum = view.Viewnum ∧
    ((ViewService.UpdateView view server c).2 = view ∨
     (ViewService.UpdateView view server c).2.Primary = "") := by
  unfold ViewService.UpdateView
  simp only
  split_ifs <;> simp

/-- The view a `Ping` replies is one a replica may hold. -/
theorem Ping_reply_ViewOK (vs : ViewService.ViewServer) (now : Int)
    (args : ViewService.PingArgs) (h : ViewService.Inv vs) :
    ViewOK (ViewService.Ping vs now args).1 (ViewService.Ping vs now args).2.View := by
  obtain ⟨h1, -, -⟩ := h
  obtain ⟨hn, ha⟩ := UpdateView_arg (vs.views vs.currentView) args.Me args.Viewnum
  unfold ViewService.Ping ViewOK
  simp only
  split_ifs
  all_goals first
    | (right; simp [ViewService.viewsSet]; done)
    | (rcases ha with ha | ha
       · right
         simp only [ha, h1]
         exact ⟨le_refl _, trivial⟩
       · left
         exact ha)

/-- A view a replica may hold stays one across a `Ping`. -/
theorem Ping_keeps_ViewOK (vs : ViewService.ViewServer) (now : Int)
    (args : ViewService.PingArgs) (w : ViewService.View) (h : ViewService.Inv vs)
    (hw : ViewOK vs w) : ViewOK (ViewService.Ping vs now args).1 w := by
  obtain ⟨h1, -, -⟩ := h
  have hv := ViewService.UpdateView_viewnum (vs.views vs.currentView) args.Me args.Viewnum
  rw [h1] at hv
  rcases hw with hw | ⟨hle, heq⟩
  · exact Or.inl hw
  · right
    unfold ViewService.Ping
    simp only
    split_ifs with ha hb hb
    all_goals first
      | exact ⟨hle, heq⟩
      | (have hlt : w.Viewnum ≠
            (ViewService.UpdateView (vs.views vs.currentView) args.Me args.Viewnum).1.Viewnum := by
           omega
         simp only [ViewService.viewsSet, if_neg hlt]
         exact ⟨by omega, heq⟩)

/-- A view a replica may hold stays one across a tick of the view server. -/
theorem tick_keeps_ViewOK (cfg : ViewService.Timing) (vs : ViewService.ViewServer) (now : Int)
    (order : List (String × Int)) (w : ViewService.View) (h : ViewService.Inv vs)
    (hw : ViewOK vs w) : ViewOK (ViewService.tick cfg vs now order) w := by
  obtain ⟨h1, -, -⟩ := h
  rcases hw with hw | ⟨hle, heq⟩
  · exact Or.inl hw
  · right
    unfold ViewService.tick
    simp only
    split_ifs
    all_goals first
      | exact ⟨hle, heq⟩
      | (have hlt : w.Viewnum ≠ (vs.views vs.currentView).Viewnum + 1 := by omega
         simp only [ViewService.viewsSet, if_neg hlt]
         exact ⟨by omega, heq⟩)

theorem deliverBackup_keeps (pbs : String → PBServer) (call : Option (String × BackupArgs))
    (ok : Bool) (m : String) :
    (deliverBackup pbs call ok m).view = (pbs m).view ∧
    (deliverBackup pbs call ok m).me = (pbs m).me := by
  unfold deliverBackup
  split
  · unfold pbsSet PBServer.Backup
    split_ifs with h
    · subst h; exact ⟨rfl, rfl⟩
    · exact ⟨rfl, rfl⟩
  · exact ⟨rfl, rfl⟩

theorem deliverForward_keeps (pbs : String → PBServer) (call : Option (String × ForwardArgs))
    (ok : Bool) (m : String) :
    (deliverForward pbs call ok m).view = (pbs m).view ∧
    (deliverForward pbs call ok m).me = (pbs m).me := by
  unfold deliverForward
  split
  · unfold pbsSet PBServer.Forward
    split_ifs with h
    · subst h; exact ⟨rfl, rfl⟩
    · exact ⟨rfl, rfl⟩
  · exact ⟨rfl, rfl⟩

theorem tick_keeps_me (pb : PBServer) (result : ViewService.View) (ok : Bool) :
    (pb.tick result ok).pb.me = pb.me ∧
    ((pb.tick result ok).pb.view = pb.view ∨ (pb.tick result ok).pb.view = result) := by
  unfold PBServer.tick
  split_ifs <;> simp

theorem Put_keeps_view (pb : PBServer) (args : PutArgs) (ok : Bool) :
    (pb.Put args ok).pb.me = pb.me ∧ (pb.Put args ok).pb.view = pb.view := by
  unfold PBServer.Put
  split_ifs <;> exact ⟨rfl, rfl⟩

theorem ClusterInv_start : ClusterInv Cluster.start :=
  ⟨ViewService.Inv_start, fun _ => ⟨rfl, Or.inl rfl⟩⟩

theorem ClusterInv_vsTick (cfg : ViewService.Timing) (c : Cluster) (now : Int)
    (order : List (String × Int)) (h : ClusterInv c) : ClusterInv (c.vsTick cfg now order) :=
  ⟨ViewService.Inv_tick cfg c.vs now order h.1,
   fun n => ⟨(h.2 n).1, tick_keeps_ViewOK cfg c.vs now order _ h.1 (h.2 n).2⟩⟩

theorem ClusterInv_put (c : Cluster) (n : String) (args : PutArgs) (ok : Bool)
    (h : ClusterInv c) : ClusterInv (c.put n args ok) := by
  refine ⟨h.1, fun m => ?_⟩
  obtain ⟨hview, hme⟩ := deliverForward_keeps (pbsSet c.pbs n ((c.pbs n).Put args ok).pb)
    ((c.pbs n).Put args ok).forwarded ok m
  obtain ⟨pme, pview⟩ := Put_keeps_view (c.pbs n) args ok
  unfold Cluster.put
  simp only [hview, hme]
  unfold pbsSet
  split_ifs with hm
  · subst hm
    rw [pme, pview]
    exact h.2 m
  · exact h.2 m

theorem ClusterInv_pbTick (c : Cluster) (n : String) (now : Int) (ok : Bool)
    (h : ClusterInv c) : ClusterInv (c.pbTick n now ok) := by
  refine ⟨ViewService.Inv_Ping c.vs now _ h.1, fun m => ?_⟩
  obtain ⟨hview, hme⟩ := deliverBackup_keeps
    (pbsSet c.pbs n ((c.pbs n).tick (ClerkPing c.vs (c.pbs n).me now (c.pbs n).view.Viewnum).2
      ok).pb)
    ((c.pbs n).tick (ClerkPing c.vs (c.pbs n).me now (c.pbs n).view.Viewnum).2 ok).backupCall
    ok m
  obtain ⟨tme, tview⟩ := tick_keeps_me (c.pbs n)
    (ClerkPing c.vs (c.pbs n).me now (c.pbs n).view.Viewnum).2 ok
  unfold Cluster.pbTick
  simp only [hview, hme]
  unfold pbsSet
  split_ifs with hm
  · subst hm
    refine ⟨by rw [tme]; exact (h.2 m).1, ?_⟩
    rcases tview with hv | hv
    · rw [hv]
      exact Ping_keeps_ViewOK c.vs now _ _ h.1 (h.2 m).2
    · rw [hv]
      exact Ping_reply_ViewOK c.vs now _ h.1
  · exact ⟨(h.2 m).1, Ping_keeps_ViewOK c.vs now _ _ h.1 (h.2 m).2⟩

theorem ClusterInv_reachable (cfg : ViewService.Timing) (c : Cluster)
    (h : ClusterReachable cfg c) : ClusterInv c := by
  induction h with
  | start => exact ClusterInv_start
  | vsTick c now order _ _ ih => exact ClusterInv_vsTick cfg c now order ih
  | pbTick c n now ok _ _ ih => exact ClusterInv_pbTick c n now ok ih
  | put c n args ok _ _ ih => exact ClusterInv_put c n args ok ih

/-- C17 (PB-At-Most-One-Primary): in every execution of one view server and
replicas with distinct non-empty names, each replica storing in `tick` the
view the `Ping` of the view server replied, no two replicas hold views with
the same number that each name the holder primary. -/
theorem PB_at_most_one_primary (cfg : ViewService.Timing) (c : Cluster)
    (h : ClusterReachable cfg c) (a b : String) (ha : a ≠ "") (hb : b ≠ "") (hab : a ≠ b) :
    ¬ ((c.pbs a).view.Viewnum = (c.pbs b).view.Viewnum ∧
       (c.pbs a).view.Primary = (c.pbs a).me ∧
       (c.pbs b).view.Primary = (c.pbs b).me) := by
  obtain ⟨-, hinv⟩ := ClusterInv_reachable cfg c h
  obtain ⟨hma, hoa⟩ := hinv a
  obtain ⟨hmb, hob⟩ := hinv b
  rintro ⟨hnum, hpa, hpb⟩
  rw [hma] at hpa
  rw [hmb] at hpb
  rcases hoa with hoa | ⟨-, hoa⟩
  · exact ha (by rw [← hpa, hoa])
  · rcases hob with hob | ⟨-, hob⟩
    · exact hb (by rw [← hpb, hob])
    · apply hab
      rw [← hpa, ← hpb, hoa, hob, hnum]

theorem PB_at_most_one_primary_witness :
    (twoReplicas.pbs "A").view = { Viewnum := 2, Primary := "A", Backup := "B" } ∧
    (twoReplicas.pbs "B").view = { Viewnum := 2, Primary := "A", Backup := "B" } ∧
    ¬ ((twoReplicas.pbs "A").view.Viewnum = (twoReplicas.pbs "B").view.Viewnum ∧
       (twoReplicas.pbs "A").view.Primary = (twoReplicas.pbs "A").me ∧
       (twoReplicas.pbs "B").view.Primary = (twoReplicas.pbs "B").me) :=
  ⟨by decide, by decide,
   PB_at_most_one_primary { PingInterval := 100, DeadPings := 5 } twoReplicas
    (ClusterReachable.pbTick _ "A" 3 true
      (ClusterReachable.pbTick _ "B" 2 true
        (ClusterReachable.pbTick _ "A" 1 true
          (ClusterReachable.pbTick _ "A" 0 true ClusterReachable.start (by decide))
          (by decide))
        (by decide))
      (by decide))
    "A" "B" (by decide) (by decide) (by decide)⟩

end PBService

/-! ## Theorems: Paxos, a single proposer -/

namespace PaxosLib

/-- C20 fails on the code: a fresh peer answers `Prepare(9)` and
`Accept(9, "a")` with OK, but after it handled `Prepare(10)`, a message of
another instance, it answers both with OK = false; and after it handled
`Accept(3, "x")` its OK reply to `Prepare(9)` carries the proposal
`(3, "x")` instead of none. -/
theorem Reply_depends_on_other_instances :
    (Make.Prepare { Seq := 9 }).2.OK = true ∧
    ((Make.Prepare { Seq := 10 }).1.Prepare { Seq := 9 }).2.OK = false ∧
    (Make.Accept { Seq := 9, Value := some "a" }).2.OK = true ∧
    ((Make.Prepare { Seq := 10 }).1.Accept { Seq := 9, Value := some "a" }).2.OK = false ∧
    (Make.Prepare { Seq := 9 }).2.Accept = { Seq := 0, Value := none } ∧
    ((Make.Accept { Seq := 3, Value := some "x" }).1.Prepare { Seq := 9 }).2 =
      { OK := true, Err := "", Accept := { Seq := 3, Value := some "x" } } := by
  decide

theorem run_cons (net : Net) (e : Nat × Delivery) (sched : List (Nat × Delivery)) :
    net.run (e :: sched) = (net.step e.1 e.2).run sched := rfl

theorem run_append (net : Net) (s1 s2 : List (Nat × Delivery)) :
    net.run (s1 ++ s2) = (net.run s1).run s2 := by
  unfold Net.run
  rw [List.foldl_append]

theorem solo_add (k a b : Nat) : solo k (a + b) = solo k a ++ solo k b := by
  unfold solo
  exact List.replicate_add a b _

/-- A loop of `n` delivered calls: if each call takes the state of `k` calls
made to the state of `k + 1` calls made, then `j` further steps take the
state of `k` calls made to the state of `k + j` calls made. -/
theorem run_loop (S : Nat → Net → Prop) (n : Nat)
    (hstep : ∀ k net, k < n → S k net → S (k + 1) (net.step 0 Delivery.delivered)) :
    ∀ (j k : Nat) (net : Net), k + j ≤ n → S k net → S (k + j) (net.run (solo 0 j)) := by
  intro j
  induction j with
  | zero => intro k net _ h; exact h
  | succ j ih =>
    intro k net hle h
    have hs : solo 0 (j + 1) = (0, Delivery.delivered) :: solo 0 j := rfl
    rw [hs, run_cons]
    have := ih (k + 1) _ (by omega) (hstep k net (by omega) h)
    rw [show k + (j + 1) = k + 1 + j by omega]
    exact this

theorem get_replicate_append (α : Type) (k m : Nat) (x y : α) :
    (List.replicate k x ++ List.replicate (m + 1) y).get? k = some y := by
  induction k with
  | zero => rfl
  | succ k ih => simpa [List.replicate_succ] using ih

theorem set_replicate_append (α : Type) (k m : Nat) (x y : α) :
    (List.replicate k x ++ List.replicate (m + 1) y).set k x =
      List.replicate (k + 1) x ++ List.replicate m y := by
  induction k with
  | zero => rfl
  | succ k ih =>
    rw [List.replicate_succ, List.cons_append, List.set_cons_succ, ih]
    rfl

theorem prep_step (seq : Int) (v : Value) (n k : Nat) (net : Net)
    (hk : k < n) (h : PrepState seq v n k net) :
    PrepState seq v n (k + 1) (net.step 0 Delivery.delivered) := by
  obtain ⟨⟨m, hm, hpeers⟩, p, hprops, hs, hval, hphase, hnext, hrep, hacc⟩ := h
  obtain ⟨m1, rfl⟩ : ∃ m1, m = m1 + 1 := ⟨m - 1, by omega⟩
  have hlen : net.peers.length = k + (m1 + 1) := by rw [hpeers]; simp
  have hget : net.peers.get? k = some Make := by
    rw [hpeers]; exact get_replicate_append _ k m1 _ _
  have hcall : callPrepare net.peers k Delivery.delivered { Seq := seq } =
      (net.peers.set k (promisedPeer seq), (Make.Prepare { Seq := seq }).2) := by
    unfold callPrepare
    rw [hget]
    rfl
  have hstep : p.step net.peers Delivery.delivered =
      ({ p with next := k + 1, replies := p.replies ++ [(Make.Prepare { Seq := seq }).2] },
       net.peers.set k (promisedPeer seq), [Msg.prepare k { Seq := seq }]) := by
    unfold Proposer.step
    simp only [hphase, hnext, hlen, hs, hcall]
    rw [if_pos (by omega)]
  unfold Net.step
  rw [hprops]
  simp only [List.get?, hstep]
  refine ⟨⟨m1, by omega, ?_⟩, _, rfl, hs, hval, hphase, rfl, ?_, hacc⟩
  · rw [hpeers]
    exact set_replicate_append _ k m1 _ _
  · simp only [hrep]
    exact (List.replicate_succ' _ _).symm

/-- Counting `n` OK replies that report the proposal number 0 adds `n` to the
count and keeps `highestAccept`. -/
theorem count_ok_replies (r : PrepareReply) (hok : r.OK = true) (hseq : r.Accept.Seq = 0)
    (n : Nat) (acc : Nat × Accept) (hacc : acc.2.Seq = 0) :
    (List.replicate n r).foldl
      (fun acc reply =>
        if reply.OK then
          (acc.1 + 1, if reply.Accept.Seq > acc.2.Seq then reply.Accept else acc.2)
        else acc) acc = (acc.1 + n, acc.2) := by
  induction n generalizing acc with
  | zero => rfl
  | succ n ih =>
    have hf : (if r.OK = true then
          (acc.1 + 1, if r.Accept.Seq > acc.2.Seq then r.Accept else acc.2)
        else acc) = (acc.1 + 1, acc.2) := by
      simp [hok, hseq, hacc]
    rw [List.replicate_succ, List.foldl_cons, hf, ih (acc.1 + 1, acc.2) hacc]
    simp only [Prod.mk.injEq, and_true]
    omega

theorem countPrepareReplies_ok (v : Value) (r : PrepareReply) (hok : r.OK = true)
    (hseq : r.Accept.Seq = 0) (n : Nat) :
    countPrepareReplies v (List.replicate n r) = (n, { Seq := 0, Value := v }) := by
  unfold countPrepareReplies
  rw [count_ok_replies r hok hseq n _ rfl]
  simp

theorem count_ok_accepts (r : AcceptReply) (hok : r.OK = true) (n a : Nat) :
    (List.replicate n r).foldl (fun c reply => if reply.OK then c + 1 else c) a = a + n := by
  induction n generalizing a with
  | zero => rfl
  | succ n ih =>
    have hf : (if r.OK = true then a + 1 else a) = a + 1 := by simp [hok]
    rw [List.replicate_succ, List.foldl_cons, hf, ih]
    omega

theorem countAccepted_ok (r : AcceptReply) (hok : r.OK = true) (n : Nat) :
    countAccepted (List.replicate n r) = n := by
  unfold countAccepted
  rw [count_ok_accepts r hok n 0]
  simp

/-- A fresh peer answers `Prepare(seq)`, `seq ≥ 0`, with OK and no proposal. -/
theorem fresh_Prepare (seq : Int) (hseq : 0 ≤ seq) :
    (Make.Prepare { Seq := seq }).2.OK = true ∧
    (Make.Prepare { Seq := seq }).2.Accept.Seq = 0 ∧
    (promisedPeer seq).maxPrepare = seq := by
  have h : seq > Make.maxPrepare := by
    show seq > -1
    omega
  unfold promisedPeer Paxos.Prepare
  simp only [h, if_true]
  simp [Accept.zero, Make]

/-- A peer that promised `seq` answers `Accept(seq, v)` with OK. -/
theorem promised_Accept (seq : Int) (v : Value) (hseq : 0 ≤ seq) :
    ((promisedPeer seq).Accept { Seq := seq, Value := v }).2.OK = true := by
  have h := (fresh_Prepare seq hseq).2.2
  unfold Paxos.Accept
  simp only [h, ge_iff_le, le_refl, if_true]

/-- After the first loop the count sends the proposer on to its second loop. -/
theorem prep_count (seq : Int) (v : Value) (n : Nat) (net : Net) (hseq : 0 ≤ seq)
    (h : PrepState seq v n n net) :
    AccState seq v n 0 (net.step 0 Delivery.delivered) := by
  obtain ⟨⟨m, hm, hpeers⟩, p, hprops, hs, hval, hphase, hnext, hrep, hacc⟩ := h
  obtain rfl : m = 0 := by omega
  have hlen : net.peers.length = n := by rw [hpeers]; simp
  obtain ⟨hok, hzero, -⟩ := fresh_Prepare seq hseq
  have hcount := countPrepareReplies_ok v _ hok hzero n
  have hstep : p.step net.peers Delivery.delivered =
      ({ p with phase := Phase.accept, next := 0,
                highestAccept := { Seq := 0, Value := v } }, net.peers, []) := by
    unfold Proposer.step
    simp only [hphase, hnext, hlen, lt_self_iff_false, if_false, hval, hrep, hcount]
    rw [if_neg (by omega)]
  unfold Net.step
  rw [hprops]
  simp only [List.get?, hstep]
  refine ⟨⟨n, by omega, ?_⟩, _, rfl, hs, rfl, rfl, rfl, ?_⟩
  · rw [hpeers]; simp
  · simp only [hacc]; rfl

theorem acc_step (seq : Int) (v : Value) (n k : Nat) (net : Net)
    (hk : k < n) (h : AccState seq v n k net) :
    AccState seq v n (k + 1) (net.step 0 Delivery.delivered) := by
  obtain ⟨⟨m, hm, hpeers⟩, p, hprops, hs, hval, hphase, hnext, hacc⟩ := h
  obtain ⟨m1, rfl⟩ : ∃ m1, m = m1 + 1 := ⟨m - 1, by omega⟩
  have hlen : net.peers.length = k + (m1 + 1) := by rw [hpeers]; simp
  have hget : net.peers.get? k = some (promisedPeer seq) := by
    rw [hpeers]; exact get_replicate_append _ k m1 _ _
  have hcall : callAccept net.peers k Delivery.delivered { Seq := seq, Value := v } =
      (net.peers.set k (acceptedPeer seq v),
       ((promisedPeer seq).Accept { Seq := seq, Value := v }).2) := by
    unfold callAccept
    rw [hget]
    rfl
  have hstep : p.step net.peers Delivery.delivered =
      ({ p with next := k + 1,
                acceptedReplies := p.acceptedReplies ++
                  [((promisedPeer seq).Accept { Seq := seq, Value := v }).2] },
       net.peers.set k (acceptedPeer seq v),
       [Msg.accept k { Seq := seq, Value := v }]) := by
    unfold Proposer.step
    simp only [hphase, hnext, hlen, hs, hval, hcall]
    rw [if_pos (by omega)]
  unfold Net.step
  rw [hprops]
  simp only [List.get?, hstep]
  refine ⟨⟨m1, by omega, ?_⟩, _, rfl, hs, hval, hphase, rfl, ?_⟩
  · rw [hpeers]
    exact set_replicate_append _ k m1 _ _
  · simp only [hacc]
    exact (List.replicate_succ' _ _).symm

/-- After the second loop the count sends the proposer on to its third loop. -/
theorem acc_count (seq : Int) (v : Value) (n : Nat) (net : Net) (hseq : 0 ≤ seq)
    (h : AccState seq v n n net) :
    DecState seq v n 0 (net.step 0 Delivery.delivered) := by
  obtain ⟨⟨m, hm, hpeers⟩, p, hprops, hs, hval, hphase, hnext, hacc⟩ := h
  obtain rfl : m = 0 := by omega
  have hlen : net.peers.length = n := by rw [hpeers]; simp
  have hcount := countAccepted_ok _ (promised_Accept seq v hseq) n
  have hstep : p.step net.peers Delivery.delivered =
      ({ p with phase := Phase.decide, next := 0 }, net.peers, []) := by
    unfold Proposer.step
    simp only [hphase, hnext, hlen, lt_self_iff_false, if_false, hacc, hcount]
    rw [if_neg (by omega)]
  unfold Net.step
  rw [hprops]
  simp only [List.get?, hstep]
  refine ⟨⟨n, by omega, ?_⟩, _, rfl, hs, hval, rfl, rfl⟩
  rw [hpeers]; simp

theorem dec_step (seq : Int) (v : Value) (n k : Nat) (net : Net)
    (hk : k < n) (h : DecState seq v n k net) :
    DecState seq v n (k + 1) (net.step 0 Delivery.delivered) := by
  obtain ⟨⟨m, hm, hpeers⟩, p, hprops, hs, hval, hphase, hnext⟩ := h
  obtain ⟨m1, rfl⟩ : ∃ m1, m = m1 + 1 := ⟨m - 1, by omega⟩
  have hlen : net.peers.length = k + (m1 + 1) := by rw [hpeers]; simp
  have hget : net.peers.get? k = some (acceptedPeer seq v) := by
    rw [hpeers]; exact get_replicate_append _ k m1 _ _
  have hcall : callDecide net.peers k Delivery.delivered { Seq := seq, Value := v } =
      net.peers.set k (decidedPeer seq v) := by
    unfold callDecide
    rw [hget]
    rfl
  have hstep : p.step net.peers Delivery.delivered =
      ({ p with next := k + 1 }, net.peers.set k (decidedPeer seq v),
       [Msg.decide k { Seq := seq, Value := v }]) := by
    unfold Proposer.step
    simp only [hphase, hnext, hlen, hs, hval, hcall]
    rw [if_pos (by omega)]
  unfold Net.step
  rw [hprops]
  simp only [List.get?, hstep]
  refine ⟨⟨m1, by omega, ?_⟩, _, rfl, hs, hval, hphase, rfl⟩
  rw [hpeers]
  exact set_replicate_append _ k m1 _ _

/-- After the third loop the proposer returns. -/
theorem dec_done (seq : Int) (v : Value) (n : Nat) (net : Net)
    (h : DecState seq v n n net) :
    DoneState seq v n (net.step 0 Delivery.delivered) := by
  obtain ⟨⟨m, hm, hpeers⟩, p, hprops, hs, hval, hphase, hnext⟩ := h
  obtain rfl : m = 0 := by omega
  have hlen : net.peers.length = n := by rw [hpeers]; simp
  have hstep : p.step net.peers Delivery.delivered =
      ({ p with phase := Phase.done }, net.peers, []) := by
    unfold Proposer.step
    simp only [hphase, hnext, hlen, lt_self_iff_false, if_false]
  unfold Net.step
  rw [hprops]
  simp only [List.get?, hstep]
  refine ⟨?_, _, rfl, rfl⟩
  rw [hpeers]; simp

theorem decidedPeer_Status (seq : Int) (v : Value) :
    (decidedPeer seq v).Status seq = (true, v) := by
  simp [decidedPeer, Paxos.Decide, Paxos.Status, mapSet]

/-- A lone proposer on fresh peers, every call delivered, returns after
`3 * n + 3` steps and leaves every peer decided. -/
theorem solo_run_done (seq : Int) (v : Value) (n : Nat) (hseq : 0 ≤ seq) :
    DoneState seq v n (((Net.init n).Start seq v).run (solo 0 (3 * n + 3))) := by
  have h0 : PrepState seq v n 0 ((Net.init n).Start seq v) :=
    ⟨⟨n, by omega, by simp [Net.init, Net.Start]⟩,
     Proposer.start seq v, rfl, rfl, rfl, rfl, rfl, rfl, rfl⟩
  have h1 := run_loop (PrepState seq v n) n
    (fun k net hk h => prep_step seq v n k net hk h) n 0 _ (by omega) h0
  rw [Nat.zero_add] at h1
  have h2 := prep_count seq v n _ hseq h1
  have h3 := run_loop (AccState seq v n) n
    (fun k net hk h => acc_step seq v n k net hk h) n 0 _ (by omega) h2
  rw [Nat.zero_add] at h3
  have h4 := acc_count seq v n _ hseq h3
  have h5 := run_loop (DecState seq v n) n
    (fun k net hk h => dec_step seq v n k net hk h) n 0 _ (by omega) h4
  rw [Nat.zero_add] at h5
  have h6 := dec_done seq v n _ h5
  have hsched : solo 0 (3 * n + 3) =
      solo 0 n ++ (solo 0 1 ++ (solo 0 n ++ (solo 0 1 ++ (solo 0 n ++ solo 0 1)))) := by
    simp only [← solo_add]
    congr 1
    omega
  have hone : ∀ net : Net, net.run (solo 0 1) = net.step 0 Delivery.delivered := fun _ => rfl
  rw [hsched]
  simp only [run_append, hone]
  exact h6

/-- C19 (single proposer): for every `seq ≥ 0`, every value `v` and every
number `n` of freshly made peers, with every call delivered, the proposer one
`Start(seq, v)` spawns returns after `3 * n + 3` steps, and then
`Status(seq)` is `(true, v)` on every peer. The proposer does not read the
state of the peer it was started on. -/
theorem Single_proposer_decides (seq : Int) (v : Value) (n : Nat) (hseq : 0 ≤ seq) :
    ((((Net.init n).Start seq v).run (solo 0 (3 * n + 3))).proposers.map
      (fun p => p.phase)) = [Phase.done] ∧
    ∀ i, i < n →
      (((Net.init n).Start seq v).run (solo 0 (3 * n + 3))).Status i seq = some (true, v) := by
  obtain ⟨hpeers, p, hprops, hphase⟩ := solo_run_done seq v n hseq
  refine ⟨by rw [hprops]; simp [hphase], fun i hi => ?_⟩
  unfold Net.Status
  rw [hpeers]
  simp [List.getElem?_replicate, hi, decidedPeer_Status]

theorem Single_proposer_decides_witness :
    ((((Net.init 3).Start 7 (some "apple")).run (solo 0 (3 * 3 + 3))).proposers.map
      (fun p => p.phase)) = [Phase.done] ∧
    ∀ i, i < 3 →
      (((Net.init 3).Start 7 (some "apple")).run (solo 0 (3 * 3 + 3))).Status i 7 =
        some (true, some "apple") :=
  Single_proposer_decides 7 (some "apple") 3 (by decide)

end PaxosLib

/-! ## Theorems: Paxos, one acceptor -/

namespace PaxosLib

/-- C21 fails on the code: `Max()` is `-1` on a fresh peer, and `Prepare`
and `Accept` raise what it returns, but `Decide` does not. A fresh peer that
handles `Decide(7, "v")` reports instance 7 decided while `Max()` is `-1`;
and in the run `decideOnlyNet`, where peers 1 and 2 receive only the Decide
of instance 9, they report it decided while their `Max()` is `-1`. -/
theorem Max_ignores_Decide :
    Make.Max = -1 ∧
    (Make.Prepare { Seq := 7 }).1.Max = 7 ∧
    (Make.Accept { Seq := 7, Value := some "v" }).1.Max = 7 ∧
    (Make.Decide { Seq := 7, Value := some "v" }).Status 7 = (true, some "v") ∧
    (Make.Decide { Seq := 7, Value := some "v" }).Max = -1 ∧
    (decideOnlyNet.peers.map (fun px => (px.Status 9, px.Max))) =
      [((true, some "a"), 9), ((true, some "a"), -1), ((true, some "a"), -1)] := by
  decide

/-- No handler lowers `maxPrepare`. -/
theorem handle_maxPrepare (px : Paxos) (c : Call) :
    px.maxPrepare ≤ (px.handle c).maxPrepare := by
  cases c with
  | prepare args =>
    unfold Paxos.handle Paxos.Prepare
    simp only
    split_ifs with h
    · exact le_of_lt h
    · exact le_refl _
  | accept args =>
    unfold Paxos.handle Paxos.Accept
    simp only
    split_ifs with h
    · exact h
    · exact le_refl _
  | decide args => exact le_refl _

theorem handleAll_maxPrepare (calls : List Call) (px : Paxos) :
    px.maxPrepare ≤ (px.handleAll calls).maxPrepare := by
  induction calls generalizing px with
  | nil => exact le_refl _
  | cons c rest ih =>
    have hstep : px.handleAll (c :: rest) = (px.handle c).handleAll rest := rfl
    rw [hstep]
    exact le_trans (handle_maxPrepare px c) (ih _)

/-- C25 (acceptor promise): across any sequence of `Prepare`, `Accept` and
`Decide` calls on one peer `maxPrepare` never decreases; and once a
`Prepare` numbered `n` was answered OK, after any further calls an `Accept`
numbered below `n` is answered with OK = false and returns the peer as it
was: accepted proposal, agreements, `maxPrepare` and instances unchanged. -/
theorem Acceptor_promise (px : Paxos) (calls : List Call) :
    px.maxPrepare ≤ (px.handleAll calls).maxPrepare ∧
    (∀ (n m : Int) (v : Value),
      (px.Prepare { Seq := n }).2.OK = true → m < n →
        (((px.Prepare { Seq := n }).1.handleAll calls).Accept
            { Seq := m, Value := v }).2.OK = false ∧
        (((px.Prepare { Seq := n }).1.handleAll calls).Accept
            { Seq := m, Value := v }).1 = (px.Prepare { Seq := n }).1.handleAll calls) := by
  refine ⟨handleAll_maxPrepare calls px, ?_⟩
  intro n m v hok hlt
  have hn : (px.Prepare { Seq := n }).1.maxPrepare = n := by
    revert hok
    unfold Paxos.Prepare
    simp only
    split_ifs with h
    · intro _; rfl
    · intro hf; exact absurd hf (by simp [PrepareReply.zero])
  have hle := handleAll_maxPrepare calls (px.Prepare { Seq := n }).1
  rw [hn] at hle
  have hnot : ¬ (m ≥ ((px.Prepare { Seq := n }).1.handleAll calls).maxPrepare) := by
    intro hge
    have : n ≤ m := le_trans hle hge
    omega
  unfold Paxos.Accept
  rw [if_neg hnot]
  exact ⟨rfl, rfl⟩

theorem Acceptor_promise_witness :
    (((Make.Prepare { Seq := 5 }).1.handleAll
        [Call.decide { Seq := 2, Value := some "d" },
         Call.accept { Seq := 6, Value := some "x" },
         Call.prepare { Seq := 3 }]).Accept { Seq := 4, Value := some "y" }).2.OK = false ∧
    (((Make.Prepare { Seq := 5 }).1.handleAll
        [Call.decide { Seq := 2, Value := some "d" },
         Call.accept { Seq := 6, Value := some "x" },
         Call.prepare { Seq := 3 }]).Accept { Seq := 4, Value := some "y" }).1 =
      (Make.Prepare { Seq := 5 }).1.handleAll
        [Call.decide { Seq := 2, Value := some "d" },
         Call.accept { Seq := 6, Value := some "x" },
         Call.prepare { Seq := 3 }] :=
  (Acceptor_promise Make
    [Call.decide { Seq := 2, Value := some "d" },
     Call.accept { Seq := 6, Value := some "x" },
     Call.prepare { Seq := 3 }]).2 5 4 (some "y") (by decide) (by decide)

end PaxosLib

/-! ## Theorems: LockService -/

namespace LockService

/-- A request is new when the client has no remembered request or the
remembered one has another id. -/
theorem fresh_iff (ls : LockServer) (c r : Int) :
    (∀ record, ls.requests c = some record → record.request ≠ r) ↔
    ¬ ((ls.requests c).isSome = true ∧
       ((ls.requests c).getD LockRecord.zero).request = r) := by
  cases h : ls.requests c with
  | none => simp
  | some record => simp

/-- C22 (lock state machine): for a request that is new for its client,
`Lock` replies true and marks the lock held if it was free, and replies false
leaving it held otherwise; `Unlock` replies true and marks it free if it was
held, and replies false leaving it free otherwise; every other lock keeps
its state. -/
theorem Lock_state_machine (ls : LockServer) (forwardOk : Bool) :
    (∀ args : LockArgs,
      (∀ record, ls.requests args.ClientId = some record →
        record.request ≠ args.RequestId) →
      (ls.locks args.Lockname = false →
        (ls.Lock args forwardOk).reply.OK = true ∧
        (ls.Lock args forwardOk).ls.locks args.Lockname = true) ∧
      (ls.locks args.Lockname = true →
        (ls.Lock args forwardOk).reply.OK = false ∧
        (ls.Lock args forwardOk).ls.locks args.Lockname = true) ∧
      (∀ other, other ≠ args.Lockname →
        (ls.Lock args forwardOk).ls.locks other = ls.locks other)) ∧
    (∀ args : UnlockArgs,
      (∀ record, ls.requests args.ClientId = some record →
        record.request ≠ args.RequestId) →
      (ls.locks args.Lockname = true →
        (ls.Unlock args forwardOk).reply.OK = true ∧
        (ls.Unlock args forwardOk).ls.locks args.Lockname = false) ∧
      (ls.locks args.Lockname = false →
        (ls.Unlock args forwardOk).reply.OK = false ∧
        (ls.Unlock args forwardOk).ls.locks args.Lockname = false) ∧
      (∀ other, other ≠ args.Lockname →
        (ls.Unlock args forwardOk).ls.locks other = ls.locks other)) := by
  constructor
  · intro args hnew
    have hn := (fresh_iff ls args.ClientId args.RequestId).1 hnew
    unfold LockServer.Lock
    simp only [if_neg hn]
    refine ⟨fun hfree => ?_, fun hheld => ?_, fun other hne => ?_⟩
    · simp [hfree, locksSet]
    · simp [hheld]
    · cases hl : ls.locks args.Lockname <;> simp [locksSet, hne]
  · intro args hnew
    have hn := (fresh_iff ls args.ClientId args.RequestId).1 hnew
    unfold LockServer.Unlock
    simp only [if_neg hn]
    refine ⟨fun hheld => ?_, fun hfree => ?_, fun other hne => ?_⟩
    · simp [hheld, locksSet]
    · simp [hfree]
    · cases hl : ls.locks args.Lockname <;> simp [locksSet, hne]

theorem Lock_state_machine_witness :
    ((freshPrimary.locks "a" = false →
        (freshPrimary.Lock { Lockname := "a", ClientId := 1, RequestId := 0 } true).reply.OK =
          true ∧
        (freshPrimary.Lock { Lockname := "a", ClientId := 1, RequestId := 0 } true).ls.locks
          "a" = true) ∧
      (freshPrimary.locks "a" = true →
        (freshPrimary.Lock { Lockname := "a", ClientId := 1, RequestId := 0 } true).reply.OK =
          false ∧
        (freshPrimary.Lock { Lockname := "a", ClientId := 1, RequestId := 0 } true).ls.locks
          "a" = true) ∧
      (∀ other, other ≠ "a" →
        (freshPrimary.Lock { Lockname := "a", ClientId := 1, RequestId := 0 } true).ls.locks
          other = freshPrimary.locks other)) ∧
    freshPrimary.locks "a" = false :=
  ⟨(Lock_state_machine freshPrimary true).1
      { Lockname := "a", ClientId := 1, RequestId := 0 }
      (fun record h => by simp [freshPrimary, StartServer] at h),
   by decide⟩

/-- A request leaves the remembered request of every other client alone. -/
theorem handle_other (ls : LockServer) (q : Request × Bool) (c : Int)
    (h : q.1.ClientId ≠ c) : (ls.handle q).requests c = ls.requests c := by
  obtain ⟨rq, ok⟩ := q
  have hc : ∀ k : Int, k ≠ c → ¬ c = k := fun k hk he => hk he.symm
  cases rq with
  | lock args =>
    simp only [LockServer.handle, LockServer.Lock, requestsSet]
    exact if_neg (hc _ h)
  | unlock args =>
    simp only [LockServer.handle, LockServer.Unlock, requestsSet]
    exact if_neg (hc _ h)

theorem handleAll_others (qs : List (Request × Bool)) (ls : LockServer) (c : Int)
    (h : ∀ q ∈ qs, q.1.ClientId ≠ c) : (ls.handleAll qs).requests c = ls.requests c := by
  induction qs generalizing ls with
  | nil => rfl
  | cons q rest ih =>
    have hstep : ls.handleAll (q :: rest) = (ls.handle q).handleAll rest := rfl
    rw [hstep, ih _ (fun x hx => h x (List.mem_cons_of_mem _ hx)),
      handle_other ls q c (h q (List.mem_cons_self _ _))]

/-- A request carrying the remembered id of its client is answered from the
record and changes no lock. -/
theorem duplicate_replayed (ls : LockServer) (c r : Int) (record : LockRecord)
    (hrec : ls.requests c = some record) (hreq : record.request = r)
    (name : String) (forwardOk : Bool) :
    (ls.Lock { Lockname := name, ClientId := c, RequestId := r } forwardOk).reply.OK =
      record.result ∧
    (ls.Lock { Lockname := name, ClientId := c, RequestId := r } forwardOk).ls.locks =
      ls.locks ∧
    (ls.Unlock { Lockname := name, ClientId := c, RequestId := r } forwardOk).reply.OK =
      record.result ∧
    (ls.Unlock { Lockname := name, ClientId := c, RequestId := r } forwardOk).ls.locks =
      ls.locks := by
  simp [LockServer.Lock, LockServer.Unlock, hrec, hreq]

/-- C23 (at-most-once): if the request remembered for client `c` has id `r`,
then after any sequence of requests from other clients a `Lock` or `Unlock`
carrying `(c, r)` replies the recorded result and leaves every lock as it
is. -/
theorem At_most_once (ls : LockServer) (c r : Int) (record : LockRecord)
    (hrec : ls.requests c = some record) (hreq : record.request = r)
    (others : List (Request × Bool)) (hothers : ∀ q ∈ others, q.1.ClientId ≠ c)
    (name : String) (forwardOk : Bool) :
    ((ls.handleAll others).Lock
        { Lockname := name, ClientId := c, RequestId := r } forwardOk).reply.OK =
      record.result ∧
    ((ls.handleAll others).Lock
        { Lockname := name, ClientId := c, RequestId := r } forwardOk).ls.locks =
      (ls.handleAll others).locks ∧
    ((ls.handleAll others).Unlock
        { Lockname := name, ClientId := c, RequestId := r } forwardOk).reply.OK =
      record.result ∧
    ((ls.handleAll others).Unlock
        { Lockname := name, ClientId := c, RequestId := r } forwardOk).ls.locks =
      (ls.handleAll others).locks := by
  have hkeep := handleAll_others others ls c hothers
  rw [hrec] at hkeep
  exact duplicate_replayed _ c r record hkeep hreq name forwardOk

theorem At_most_once_witness :
    ((heldA.handleAll
        [(Request.unlock { Lockname := "a", ClientId := 2, RequestId := 0 }, true)]).Lock
        { Lockname := "a", ClientId := 1, RequestId := 0 } true).reply.OK = true ∧
    ((heldA.handleAll
        [(Request.unlock { Lockname := "a", ClientId := 2, RequestId := 0 }, true)]).Lock
        { Lockname := "a", ClientId := 1, RequestId := 0 } true).ls.locks =
      (heldA.handleAll
        [(Request.unlock { Lockname := "a", ClientId := 2, RequestId := 0 }, true)]).locks :=
  ⟨(At_most_once heldA 1 0 { client := 1, request := 0, result := true } (by decide) rfl
      [(Request.unlock { Lockname := "a", ClientId := 2, RequestId := 0 }, true)]
      (by decide) "a" true).1,
   (At_most_once heldA 1 0 { client := 1, request := 0, result := true } (by decide) rfl
      [(Request.unlock { Lockname := "a", ClientId := 2, RequestId := 0 }, true)]
      (by decide) "a" true).2.1⟩

/-- Two servers that agree on locks and remembered requests compute the same
reply, locks and remembered requests for a request. -/
theorem Lock_agree (p b : LockServer) (hl : p.locks = b.locks) (hr : p.requests = b.requests)
    (args : LockArgs) (ok1 ok2 : Bool) :
    (p.Lock args ok1).reply = (b.Lock args ok2).reply ∧
    (p.Lock args ok1).ls.locks = (b.Lock args ok2).ls.locks ∧
    (p.Lock args ok1).ls.requests = (b.Lock args ok2).ls.requests := by
  simp [LockServer.Lock, hl, hr]

theorem Unlock_agree (p b : LockServer) (hl : p.locks = b.locks)
    (hr : p.requests = b.requests) (args : UnlockArgs) (ok1 ok2 : Bool) :
    (p.Unlock args ok1).reply = (b.Unlock args ok2).reply ∧
    (p.Unlock args ok1).ls.locks = (b.Unlock args ok2).ls.locks ∧
    (p.Unlock args ok1).ls.requests = (b.Unlock args ok2).ls.requests := by
  simp [LockServer.Unlock, hl, hr]

/-- After a request the server remembers it with the reply it gave. -/
theorem Lock_remembered (ls : LockServer) (args : LockArgs) (ok : Bool) :
    (ls.Lock args ok).ls.requests args.ClientId =
      some { client := args.ClientId, request := args.RequestId,
             result := (ls.Lock args ok).reply.OK } := by
  simp [LockServer.Lock, requestsSet]

theorem Unlock_remembered (ls : LockServer) (args : UnlockArgs) (ok : Bool) :
    (ls.Unlock args ok).ls.requests args.ClientId =
      some { client := args.ClientId, request := args.RequestId,
             result := (ls.Unlock args ok).reply.OK } := by
  simp [LockServer.Unlock, requestsSet]

/-- C24 (lock failover): the primary `p` and the backup `b` agree on every
lock and every remembered request. The primary handles a `Lock` or `Unlock`
and its forward reaches the backup: then the two agree again, and the same
request sent again to the backup is answered with the reply the primary
computed and changes no lock. -/
theorem Lock_failover (p b : LockServer) (hp : p.am_primary = true)
    (hl : p.locks = b.locks) (hr : p.requests = b.requests) (ok1 ok2 : Bool) :
    (∀ args : LockArgs,
      (p.Lock args ok1).forwarded = some (p.backup, args) ∧
      (p.Lock args ok1).ls.locks = (forwardLock (p.Lock args ok1).forwarded b).locks ∧
      (p.Lock args ok1).ls.requests = (forwardLock (p.Lock args ok1).forwarded b).requests ∧
      ((forwardLock (p.Lock args ok1).forwarded b).Lock args ok2).reply =
        (p.Lock args ok1).reply ∧
      ((forwardLock (p.Lock args ok1).forwarded b).Lock args ok2).ls.locks =
        (forwardLock (p.Lock args ok1).forwarded b).locks) ∧
    (∀ args : UnlockArgs,
      (p.Unlock args ok1).forwarded = some (p.backup, args) ∧
      (p.Unlock args ok1).ls.locks = (forwardUnlock (p.Unlock args ok1).forwarded b).locks ∧
      (p.Unlock args ok1).ls.requests =
        (forwardUnlock (p.Unlock args ok1).forwarded b).requests ∧
      ((forwardUnlock (p.Unlock args ok1).forwarded b).Unlock args ok2).reply =
        (p.Unlock args ok1).reply ∧
      ((forwardUnlock (p.Unlock args ok1).forwarded b).Unlock args ok2).ls.locks =
        (forwardUnlock (p.Unlock args ok1).forwarded b).locks) := by
  constructor
  · intro args
    have hf : (p.Lock args ok1).forwarded = some (p.backup, args) := by
      simp [LockServer.Lock, hp]
    obtain ⟨hreply, hlocks, hreqs⟩ := Lock_agree p b hl hr args ok1 false
    have hb : forwardLock (p.Lock args ok1).forwarded b = (b.Lock args false).ls := by
      rw [hf]; rfl
    have hdup := duplicate_replayed (b.Lock args false).ls args.ClientId args.RequestId _
      (Lock_remembered b args false) rfl args.Lockname ok2
    rw [hb]
    refine ⟨hf, hlocks, hreqs, ?_, hdup.2.1⟩
    rw [hreply]
    cases hrep : (b.Lock args false).reply
    have := hdup.1
    rw [hrep] at this
    cases hre : ((b.Lock args false).ls.Lock args ok2).reply
    rw [hre] at this
    simpa using this
  · intro args
    have hf : (p.Unlock args ok1).forwarded = some (p.backup, args) := by
      simp [LockServer.Unlock, hp]
    obtain ⟨hreply, hlocks, hreqs⟩ := Unlock_agree p b hl hr args ok1 false
    have hb : forwardUnlock (p.Unlock args ok1).forwarded b = (b.Unlock args false).ls := by
      rw [hf]; rfl
    have hdup := duplicate_replayed (b.Unlock args false).ls args.ClientId args.RequestId _
      (Unlock_remembered b args false) rfl args.Lockname ok2
    rw [hb]
    refine ⟨hf, hlocks, hreqs, ?_, hdup.2.2.2⟩
    rw [hreply]
    cases hrep : (b.Unlock args false).reply
    have := hdup.2.2.1
    rw [hrep] at this
    cases hre : ((b.Unlock args false).ls.Unlock args ok2).reply
    rw [hre] at this
    simpa using this

theorem Lock_failover_witness :
    (freshPrimary.Lock { Lockname := "a", ClientId := 1, RequestId := 0 } true).forwarded =
      some (freshPrimary.backup, { Lockname := "a", ClientId := 1, RequestId := 0 }) ∧
    ((forwardLock
        (freshPrimary.Lock { Lockname := "a", ClientId := 1, RequestId := 0 } true).forwarded
        freshBackup).Lock { Lockname := "a", ClientId := 1, RequestId := 0 } false).reply =
      (freshPrimary.Lock { Lockname := "a", ClientId := 1, RequestId := 0 } true).reply :=
  ⟨((Lock_failover freshPrimary freshBackup (by decide) rfl rfl true false).1
      { Lockname := "a", ClientId := 1, RequestId := 0 }).1,
   ((Lock_failover freshPrimary freshBackup (by decide) rfl rfl true false).1
      { Lockname := "a", ClientId := 1, RequestId := 0 }).2.2.2.1⟩

end LockService

/-! ## Theorems: ViewService, the view algebra on `uint` -/

namespace ViewService

/-- Below the wrap `UpdateViewUint` and `UpdateView` return the same. -/
theorem UpdateViewUint_eq (view : View) (server : String) (c : Nat)
    (h : view.Viewnum + 1 < uintSize) :
    UpdateViewUint view server c = UpdateView view server c := by
  unfold UpdateViewUint UpdateView
  simp only
  split_ifs <;> simp_all [Nat.mod_eq_of_lt]

/-- C8, as stated, fails on the code at the largest `uint`: for the view
`(2^64 - 1, A, "")` and a ping of `B`, `UpdateView` returns `(0, A, B)`, the
sum `v + 1` having wrapped, and not `(2^64, A, B)`. -/
theorem UpdateView_wraps :
    (UpdateViewUint { Viewnum := 18446744073709551615, Primary := "A", Backup := "" }
      "B" 0).1 = { Viewnum := 0, Primary := "A", Backup := "B" } ∧
    (UpdateViewUint { Viewnum := 18446744073709551615, Primary := "A", Backup := "" }
      "B" 0).1 ≠
      { Viewnum := 18446744073709551615 + 1, Primary := "A", Backup := "B" } ∧
    (18446744073709551615 : Nat) < uintSize := by
  decide

/-- C8 (view algebra, amended): for every view `(v, p, b)`, server `s` and
claimed number `c`, with `p' = ""` if `c = 0`, `v > 1` and `s = p`, and
`p' = p` otherwise, and with `w = (v + 1) mod 2^64`, `UpdateView` returns
`(w, b, s)` if `p'` is empty and `b` is not, `(w, s, "")` if both are empty,
`(w, p, s)` if `p'` is not empty, `b` is empty and `s ≠ p`, and the view it
was given in every other case; and `w = v + 1` whenever `v < 2^64 - 1`. -/
theorem UpdateViewUint_algebra (v : Nat) (p b s : String) (c : Nat) :
    (UpdateViewUint { Viewnum := v, Primary := p, Backup := b } s c).1 =
      (if (if c = 0 ∧ v > 1 ∧ s = p then "" else p) = "" ∧ b ≠ "" then
        { Viewnum := (v + 1) % uintSize, Primary := b, Backup := s }
      else if (if c = 0 ∧ v > 1 ∧ s = p then "" else p) = "" ∧ b = "" then
        { Viewnum := (v + 1) % uintSize, Primary := s, Backup := "" }
      else if (if c = 0 ∧ v > 1 ∧ s = p then "" else p) ≠ "" ∧ b = "" ∧ s ≠ p then
        { Viewnum := (v + 1) % uintSize, Primary := p, Backup := s }
      else { Viewnum := v, Primary := p, Backup := b }) ∧
    (v + 1 < uintSize → (v + 1) % uintSize = v + 1) := by
  refine ⟨?_, fun h => Nat.mod_eq_of_lt h⟩
  unfold UpdateViewUint
  simp only
  split_ifs <;> simp_all

theorem UpdateViewUint_algebra_witness :
    (UpdateViewUint { Viewnum := 1, Primary := "A", Backup := "" } "B" 0).1 =
      { Viewnum := 2, Primary := "A", Backup := "B" } ∧
    (1 + 1) % uintSize = 1 + 1 := by
  have h := UpdateViewUint_algebra 1 "A" "" "B" 0
  exact ⟨h.1.trans (by decide), h.2 (by decide)⟩

end ViewService
